import Mathlib

/-!
# Verification of the website-clone engine (`src/cloneWebsite.js`)

This file gives a shallow embedding, in Lean 4, of the crawl-and-rewrite
engine of the `ai-agent-cli` repository (file `src/cloneWebsite.js`), and
proves or refutes the frozen claims about it.

Modelling conventions:

* JavaScript strings are Lean `String`s; character-level operations are
  carried out on `String.data : List Char`.
* The WHATWG `URL` class is modelled by the structure `Url` holding the
  components the source reads (`protocol`, `host`, `pathname`, `search`,
  `hash`), with `origin` and `href` derived exactly as the class exposes
  them.  URL *parsing* and *resolution* (`new URL(s)` / `new URL(s, base)`)
  are opaque effectful primitives of the environment `Env`; a `none` result
  models the `TypeError` the constructor throws.
* Effects (network fetches, filesystem writes, `cheerio.load`,
  `decodeURIComponent`) are fields of an explicit environment record `Env`;
  a crawl is a deterministic function of the environment.  `fetch` rejection
  (network error / timeout) is `Except.error`; a resolved response carries
  its `ok` flag, status, content-type header, and the possibly-failing
  body-read results.
* Thrown JavaScript exceptions are `Except.error`; `try/catch` is the
  corresponding `match` that discards the error, placed exactly where the
  source has a handler.
* The crawl loop's mutable state (`visitedPages`, `pageQueue`, `assetSet`,
  written files) is threaded explicitly as `CrawlState`.  Two
  instrumentation fields are added that the source does not store but that
  the claims quantify over: `enqueued` (every URL ever pushed onto
  `pageQueue`, in order) and `fetchTrace` (every URL for which a page-level
  `fetch` was issued).  They are write-only and do not influence control
  flow.
* `sleep` (the robots crawl delay) and the `p-limit` concurrency cap change
  timing only, not the final state of any run, and are not modelled; asset
  downloads are independent of one another, and the source populates the
  asset set strictly before the download phase, so the download phase is
  modelled as a left-to-right traversal of the asset set.
-/

set_option linter.unusedVariables false

namespace AgentClone

/-! ## Character-list primitives mirroring the JavaScript string methods -/

/-- `pre.isPrefixOf s` as a boolean, on character lists (JS `startsWith`). -/
def listIsPrefix : List Char → List Char → Bool
  | [], _ => true
  | _ :: _, [] => false
  | a :: as, b :: bs => a == b && listIsPrefix as bs

/-- JS `String.prototype.startsWith`. -/
def strStartsWith (s pre : String) : Bool := listIsPrefix pre.data s.data

/-- JS `String.prototype.endsWith`. -/
def strEndsWith (s suf : String) : Bool := listIsPrefix suf.data.reverse s.data.reverse

/-- JS `String.prototype.includes`: substring containment. -/
def listIncludes (needle hay : List Char) : Bool :=
  hay.tails.any (fun t => listIsPrefix needle t)

/-- JS `hay.includes(needle)`. -/
def strIncludes (hay needle : String) : Bool := listIncludes needle.data hay.data

/-- Characters strictly after the first occurrence of `needle`; `none` when
`needle` does not occur.  Used to model the regex
`/\/_next\/image\?url=([^&]+)/`. -/
def afterFirstSub (needle : List Char) : List Char → Option (List Char)
  | [] => if listIsPrefix needle [] then some [] else none
  | a :: rest =>
    if listIsPrefix needle (a :: rest) then some ((a :: rest).drop needle.length)
    else afterFirstSub needle rest

/-- JS `String.prototype.split` with a single-character separator, on
character lists.  `splitChar c []` is `[[]]`, matching `"".split(c)`. -/
def splitChar (c : Char) : List Char → List (List Char)
  | [] => [[]]
  | a :: rest =>
    match splitChar c rest with
    | [] => [[]]
    | h :: t => if a = c then [] :: h :: t else (a :: h) :: t

/-- JS `Array.prototype.join` on character lists. -/
def joinWith (sep : List Char) : List (List Char) → List Char
  | [] => []
  | [x] => x
  | x :: y :: rest => x ++ sep ++ joinWith sep (y :: rest)

/-- Node `path.basename` (posix): strip trailing separators, keep the part
after the last remaining separator. -/
def nodeBasename (p : List Char) : List Char :=
  let stripped := (p.reverse.dropWhile (· = '/')).reverse
  (stripped.reverse.takeWhile (· ≠ '/')).reverse

/-- The part of `p` after its last `'/'` (the whole of `p` if none); this is
the portion of a path that Node `path.extname` examines. -/
def afterLastSlash (p : List Char) : List Char :=
  (p.reverse.takeWhile (· ≠ '/')).reverse

/-- Node `path.extname` on the last path segment: the suffix from the last
dot, or `[]` when there is no dot, the dot is the leading character, or the
segment is exactly `".."`. -/
def extnameCore (base : List Char) : List Char :=
  if base.contains '.' then
    let tail := (base.reverse.takeWhile (· ≠ '.')).reverse
    let idx := base.length - tail.length - 1
    if idx = 0 ∨ base = ['.', '.'] then [] else '.' :: tail
  else []

/-- Node `path.extname` (posix). -/
def extname (p : String) : String := ⟨extnameCore (afterLastSlash p.data)⟩

/-! ## MD5 (`crypto.createHash("md5")`), over byte lists -/

/-- 32-bit left rotation. -/
def rotl32 (x n : Nat) : Nat := ((x <<< n) ||| (x >>> (32 - n))) % 4294967296

/-- MD5 per-round sine-derived constants. -/
def md5K : List Nat :=
  [0xd76aa478, 0xe8c7b756, 0x242070db, 0xc1bdceee,
   0xf57c0faf, 0x4787c62a, 0xa8304613, 0xfd469501,
   0x698098d8, 0x8b44f7af, 0xffff5bb1, 0x895cd7be,
   0x6b901122, 0xfd987193, 0xa679438e, 0x49b40821,
   0xf61e2562, 0xc040b340, 0x265e5a51, 0xe9b6c7aa,
   0xd62f105d, 0x02441453, 0xd8a1e681, 0xe7d3fbc8,
   0x21e1cde6, 0xc33707d6, 0xf4d50d87, 0x455a14ed,
   0xa9e3e905, 0xfcefa3f8, 0x676f02d9, 0x8d2a4c8a,
   0xfffa3942, 0x8771f681, 0x6d9d6122, 0xfde5380c,
   0xa4beea44, 0x4bdecfa9, 0xf6bb4b60, 0xbebfbc70,
   0x289b7ec6, 0xeaa127fa, 0xd4ef3085, 0x04881d05,
   0xd9d4d039, 0xe6db99e5, 0x1fa27cf8, 0xc4ac5665,
   0xf4292244, 0x432aff97, 0xab9423a7, 0xfc93a039,
   0x655b59c3, 0x8f0ccc92, 0xffeff47d, 0x85845dd1,
   0x6fa87e4f, 0xfe2ce6e0, 0xa3014314, 0x4e0811a1,
   0xf7537e82, 0xbd3af235, 0x2ad7d2bb, 0xeb86d391]

/-- MD5 per-round shift amounts. -/
def md5S : List Nat :=
  [7, 12, 17, 22, 7, 12, 17, 22, 7, 12, 17, 22, 7, 12, 17, 22,
   5, 9, 14, 20, 5, 9, 14, 20, 5, 9, 14, 20, 5, 9, 14, 20,
   4, 11, 16, 23, 4, 11, 16, 23, 4, 11, 16, 23, 4, 11, 16, 23,
   6, 10, 15, 21, 6, 10, 15, 21, 6, 10, 15, 21, 6, 10, 15, 21]

/-- Little-endian 32-bit word read from a 64-byte chunk. -/
def md5Word (chunk : List Nat) (g : Nat) : Nat :=
  chunk.getD (4 * g) 0 + 256 * chunk.getD (4 * g + 1) 0 +
    65536 * chunk.getD (4 * g + 2) 0 + 16777216 * chunk.getD (4 * g + 3) 0

/-- One of the 64 MD5 rounds on state `(A, B, C, D)`. -/
def md5Round (chunk : List Nat) (st : Nat × Nat × Nat × Nat) (i : Nat) :
    Nat × Nat × Nat × Nat :=
  let (a, b, c, d) := st
  let notB := b ^^^ 0xffffffff
  let notD := d ^^^ 0xffffffff
  let (f, g) :=
    if i < 16 then ((b &&& c) ||| (notB &&& d), i)
    else if i < 32 then ((d &&& b) ||| (notD &&& c), (5 * i + 1) % 16)
    else if i < 48 then (b ^^^ c ^^^ d, (3 * i + 5) % 16)
    else (c ^^^ (b ||| notD), (7 * i) % 16)
  let f' := (f + a + md5K.getD i 0 + md5Word chunk g) % 4294967296
  (d, (b + rotl32 f' (md5S.getD i 0)) % 4294967296, b, c)

/-- Process one 64-byte chunk, updating the running digest state. -/
def md5Chunk (st : Nat × Nat × Nat × Nat) (chunk : List Nat) :
    Nat × Nat × Nat × Nat :=
  let (a0, b0, c0, d0) := st
  let (a, b, c, d) := (List.range 64).foldl (md5Round chunk) (a0, b0, c0, d0)
  ((a0 + a) % 4294967296, (b0 + b) % 4294967296,
   (c0 + c) % 4294967296, (d0 + d) % 4294967296)

/-- Split a byte list into 64-byte chunks. -/
def chunk64 (l : List Nat) : List (List Nat) :=
  if h : l = [] then [] else l.take 64 :: chunk64 (l.drop 64)
termination_by l.length
decreasing_by
  cases l with
  | nil => exact absurd rfl h
  | cons a t => simp [List.length_drop]; omega

/-- Little-endian byte decomposition of a 32-bit word. -/
def leBytes4 (n : Nat) : List Nat :=
  [n % 256, n / 256 % 256, n / 65536 % 256, n / 16777216 % 256]

/-- Little-endian byte decomposition of the 64-bit bit-length field. -/
def leBytes8 (n : Nat) : List Nat :=
  leBytes4 (n % 4294967296) ++ leBytes4 (n / 4294967296 % 4294967296)

/-- MD5 padding: `0x80`, zeros to 56 mod 64, then the bit length. -/
def md5Pad (msg : List Nat) : List Nat :=
  let zeros := (56 + 64 - (msg.length + 1) % 64) % 64
  msg ++ [0x80] ++ List.replicate zeros 0 ++ leBytes8 (msg.length * 8 % 18446744073709551616)

/-- The 16-byte MD5 digest of a byte list. -/
def md5Bytes (msg : List Nat) : List Nat :=
  let st :=
    (chunk64 (md5Pad msg)).foldl md5Chunk (0x67452301, 0xefcdab89, 0x98badcfe, 0x10325476)
  leBytes4 st.1 ++ leBytes4 st.2.1 ++ leBytes4 st.2.2.1 ++ leBytes4 st.2.2.2

/-- The sixteen lowercase hexadecimal digits. -/
def hexChars : List Char := "0123456789abcdef".data

/-- The hexadecimal digit of `n % 16`. -/
def hexDigit (n : Nat) : Char := hexChars.get ⟨n % 16, Nat.mod_lt _ (by norm_num)⟩

/-- Two-character lowercase hex rendering of a byte. -/
def byteHex (b : Nat) : List Char := [hexDigit (b / 16), hexDigit b]

/-- Lowercase hex rendering of a byte list. -/
def hexOfBytes : List Nat → List Char
  | [] => []
  | b :: bs => byteHex b ++ hexOfBytes bs

/-- `crypto.createHash("md5").update(s).digest("hex")` as a character list:
the 32-character lowercase hex MD5 digest of the UTF-8 bytes of `s`. -/
def md5HexChars (s : String) : List Char :=
  hexOfBytes (md5Bytes (s.toUTF8.toList.map (fun b => b.toNat)))

end AgentClone

namespace AgentClone

/-! ## The data model: URLs, responses, documents, environment -/

/-- A parsed WHATWG URL, as the source reads it: `protocol` (e.g. `"https:"`),
`host`, `pathname`, `search` (`""` or starting with `'?'`), `hash` (`""` or
starting with `'#'`). -/
structure Url where
  protocol : String
  host : String
  pathname : String
  search : String
  hash : String
deriving DecidableEq, Repr

/-- `url.origin`: protocol + `//` + host. -/
def Url.origin (u : Url) : String := u.protocol ++ "//" ++ u.host

/-- `url.href`: origin + pathname + search + hash. -/
def Url.href (u : Url) : String := u.origin ++ u.pathname ++ u.search ++ u.hash

/-- The parts of a `fetch` response the source reads.  `textRes` is the result
of `response.text()` (which can reject even after a resolved fetch), `bufRes`
the result of `response.arrayBuffer()` (the bytes themselves are never
inspected, only written out, so they are not carried). -/
structure Response where
  ok : Bool
  status : Nat
  contentTypeHdr : Option String
  textRes : Except String String
  bufRes : Except String Unit

/-- An `<img>` element: the three attributes the rewriter reads. -/
structure ImgEl where
  src : Option String
  dataSrc : Option String
  srcset : Option String

/-- A parsed HTML document, reduced to what the cheerio traversals select:
`$("img")`, `$("link[href]")`, `$("script[src]")`, `$("a[href]")` in document
order.  Attribute values selected by `[attr]` are present but may be `""`. -/
structure Doc where
  imgs : List ImgEl
  linkHrefs : List String
  scriptSrcs : List String
  anchorHrefs : List String

/-- The effectful world a clone runs against.  `fetch` is keyed by the URL
string; `parseUrl` models `new URL(s)` and `resolve` models
`new URL(s, base)` (with `none` for the thrown `TypeError`);
`decodeURIComponent` may throw `URIError` (`none`); `load` is `cheerio.load`
(total — the parser is tolerant); `emptyDirOk`/`writeOk` model
`fs.emptyDir` / `fs.ensureDir`+`fs.writeFile` success. -/
structure Env where
  cwd : String
  fetch : String → Except String Response
  parseUrl : String → Option Url
  resolve : String → String → Option Url
  decodeURIComponent : String → Option String
  load : String → Doc
  emptyDirOk : Bool
  writeOk : String → Bool

/-- A robots policy: `{ disallowedPaths, crawlDelay }`. -/
structure RobotsRules where
  disallowedPaths : List String
  crawlDelay : Int
deriving DecidableEq, Repr

/-! ## The pure helpers of `cloneWebsite.js` -/

/-- The decimal-digit prefix value used by `parseInt`. -/
def parseIntDigits (ds : List Char) : Option Nat :=
  let digits := ds.takeWhile (fun c => c.isDigit)
  if digits = [] then none
  else some (digits.foldl (fun acc c => 10 * acc + (c.toNat - 48)) 0)

/-- JS `parseInt` restricted to base-10 input (all the source ever feeds it):
skip whitespace, optional sign, decimal digit prefix; `none` is `NaN`. -/
def parseIntJS (s : String) : Option Int :=
  match s.trim.data with
  | '-' :: rest => (parseIntDigits rest).map (fun n => -(n : Int))
  | '+' :: rest => (parseIntDigits rest).map (fun n => (n : Int))
  | ds => (parseIntDigits ds).map (fun n => (n : Int))

/-- `parseInt(s) || 0`. -/
def jsParseIntOr0 (s : String) : Int := (parseIntJS s).getD 0

/-- Accumulator of `parseRobotsForUserAgent`'s line loop. -/
structure RobotsAcc where
  currentUserAgent : Option String
  disallowedPaths : List String
  crawlDelay : Int

/-- One line of the robots parser (the body of the `for` loop in
`parseRobotsForUserAgent`). -/
def robotsLine (userAgent : String) (acc : RobotsAcc) (line : String) : RobotsAcc :=
  if strStartsWith line "User-agent:" then
    let agent := ((line.splitOn ":").getD 1 "").trim
    { acc with currentUserAgent := if agent = "*" ∨ agent = userAgent then some agent else none }
  else if acc.currentUserAgent.isSome && strStartsWith line "Disallow:" then
    let p := ((line.splitOn ":").getD 1 "").trim
    { acc with disallowedPaths := if p ≠ "" then acc.disallowedPaths ++ [p] else acc.disallowedPaths }
  else if acc.currentUserAgent.isSome && strStartsWith line "Crawl-delay:" then
    { acc with crawlDelay := jsParseIntOr0 (((line.splitOn ":").getD 1 "").trim) }
  else acc

/-- `parseRobotsForUserAgent(robotsText, userAgent)`. -/
def parseRobotsForUserAgent (robotsText userAgent : String) : RobotsRules :=
  let lines := (robotsText.splitOn "\n").map (fun l => l.trim)
  let acc := lines.foldl (robotsLine userAgent) ⟨none, [], 0⟩
  ⟨acc.disallowedPaths, acc.crawlDelay⟩

/-- The URL `new URL('/robots.txt', baseUrl)`: same origin, path replaced. -/
def robotsUrlOf (baseUrl : Url) : Url :=
  { protocol := baseUrl.protocol, host := baseUrl.host, pathname := "/robots.txt",
    search := "", hash := "" }

/-- `parseRobots(baseUrl)`: fetch `/robots.txt`; on rejection, timeout,
non-success status, or body-read failure return the empty policy (the
`try/catch` and the `!response.ok` early return), else parse for
`'WebsiteCloner'`.  The function is total: no failure escapes it. -/
def parseRobots (env : Env) (baseUrl : Url) : RobotsRules :=
  match env.fetch (robotsUrlOf baseUrl).href with
  | .error _ => ⟨[], 0⟩
  | .ok response =>
    if !response.ok then ⟨[], 0⟩
    else
      match response.textRes with
      | .error _ => ⟨[], 0⟩
      | .ok robotsText => parseRobotsForUserAgent robotsText "WebsiteCloner"

/-- `isUrlAllowed` on the already-extracted `new URL(url).pathname` (call
sites thread the parse through `Env.parseUrl`). -/
def isUrlAllowed (pathname : String) (disallowedPaths : List String) : Bool :=
  !(disallowedPaths.any (fun p =>
    if strEndsWith p "*" then strStartsWith pathname ⟨p.data.dropLast⟩
    else pathname == p || strStartsWith pathname (p ++ "/")))

/-- `SKIPPABLE_HREF_PREFIXES`. -/
def SKIPPABLE_HREF_PREFIXES : List String := ["#", "mailto:", "tel:", "javascript:"]

/-- `isSkippableHref`: falsy href or one of the skippable prefixes. -/
def isSkippableHref (href : String) : Bool :=
  href == "" || SKIPPABLE_HREF_PREFIXES.any (fun pre => strStartsWith href pre)

/-- Node `path.join` restricted to how the source uses it: the right-hand
part is always a nonempty relative path with no `.`/`..` segments (URL
pathnames are emitted dot-segment-free by the URL parser), so joining is
concatenation with a single separator. -/
def pathJoin (a b : String) : String := a ++ "/" ++ b

/-- `localizeAssetPath(url)`: flatten the pathname segments with `_`
(fallback `"asset"`), prefix with the first 6 hex chars of the MD5 of the
full `href`, under `assets/`. -/
def localizeAssetPath (url : Url) : String :=
  let urlPath := joinWith ['_'] ((splitChar '/' url.pathname.data).filter (fun p => p ≠ []))
  let base := nodeBasename (if urlPath = [] then "asset".data else urlPath)
  let hash := (md5HexChars url.href).take 6
  ⟨"assets/".data ++ hash ++ ['-'] ++ base⟩

/-- `mapTargetUrlToFilePath(url)`, with the enclosing `outputDir` made an
explicit parameter: directory URLs get `index.html`, extension-less leaves
get `/index.html`, and leading slashes are stripped before joining. -/
def mapTargetUrlToFilePath (outputDir : String) (url : Url) : String :=
  let pathname := url.pathname
  let pathname :=
    if strEndsWith pathname "/" then pathname ++ "index.html"
    else if extname pathname = "" then pathname ++ "/index.html"
    else pathname
  pathJoin outputDir ⟨pathname.data.dropWhile (· = '/')⟩

end AgentClone

namespace AgentClone

/-! ## Crawl state and the document rewriter -/

/-- The crawl's mutable state.  `visitedPages`, `pageQueue`, `assetSet` are
the source's `Set`/array of URL strings; `writtenPages` records the page
file paths written; `enqueued` and `fetchTrace` are write-only
instrumentation (every URL ever pushed onto the queue, and every URL for
which a page `fetch` was issued). -/
structure CrawlState where
  visitedPages : List String
  pageQueue : List String
  assetSet : List String
  enqueued : List String
  writtenPages : List String
  fetchTrace : List String
deriving DecidableEq, Repr

/-- `Set.prototype.add` on the ordered-list model of a JS `Set`. -/
def addAsset (s : List String) (href : String) : List String :=
  if s.contains href then s else s ++ [href]

/-- Enqueue a discovered page URL (`pageQueue.push`), recording it in the
`enqueued` instrumentation trace. -/
def pushQueue (s : CrawlState) (href : String) : CrawlState :=
  { s with pageQueue := s.pageQueue ++ [href], enqueued := s.enqueued ++ [href] }

/-- The read-only context of one document-rewriting pass. -/
structure RewriteCtx where
  rootOrigin : String
  respectRobots : Bool
  disallowedPaths : List String
  currentUrl : String

/-- One `src`/`data-src` value of an `<img>` (lines 148–168 of the source):
skip falsy values; for `/_next/image` proxy values try to decode the wrapped
URL with every failure caught; otherwise resolve non-`data:` values, where a
resolution failure is an uncaught throw. -/
def processImgAttr (env : Env) (ctx : RewriteCtx) (value : Option String) (s : CrawlState) :
    Except (String × CrawlState) CrawlState :=
  match value with
  | none => .ok s
  | some v =>
    if v = "" then .ok s
    else if strIncludes v "/_next/image" && strIncludes v "url=" then
      match (v.splitOn "url=").get? 1 with
      | none => .ok s
      | some part =>
        match env.decodeURIComponent ((part.splitOn "&").headD "") with
        | none => .ok s
        | some decodeURL =>
          match env.resolve decodeURL ctx.currentUrl with
          | none => .ok s
          | some absoluteUrl => .ok { s with assetSet := addAsset s.assetSet absoluteUrl.href }
    else if strStartsWith v "data:" then .ok s
    else
      match env.resolve v ctx.currentUrl with
      | none => .error ("Invalid URL: " ++ v, s)
      | some absoluteUrl => .ok { s with assetSet := addAsset s.assetSet absoluteUrl.href }

/-- The `fixedUrl` of one `srcset` entry (lines 175–181): when the entry URL
contains `/_next/image?url=`, the regex `\/_next\/image\?url=([^&]+)` captures
the nonempty run of non-`&` characters after the first occurrence, which is
then decoded *outside* any `try`, so a `decodeURIComponent` throw
propagates; without a match the URL passes through. -/
def srcsetFixedUrl (env : Env) (url : String) (s : CrawlState) :
    Except (String × CrawlState) String :=
  if strIncludes url "/_next/image?url=" then
    match afterFirstSub "/_next/image?url=".data url.data with
    | none => .ok url
    | some csAfter =>
      if csAfter.takeWhile (fun c => c ≠ '&') = [] then .ok url
      else
        match env.decodeURIComponent ⟨csAfter.takeWhile (fun c => c ≠ '&')⟩ with
        | none => .error ("URIError: URI malformed", s)
        | some d => .ok d
  else .ok url

/-- One comma-separated `srcset` entry (lines 171–185): first
whitespace-token is the URL (empty entries pass through untouched); the
possibly-unwrapped URL is resolved (a throw propagates) and registered. -/
def processSrcsetEntry (env : Env) (ctx : RewriteCtx) (entry : String) (s : CrawlState) :
    Except (String × CrawlState) CrawlState :=
  match ((entry.trim.split (fun c => c.isWhitespace)).filter (fun t => t ≠ "")).head? with
  | none => .ok s
  | some url =>
    match srcsetFixedUrl env url s with
    | .error e => .error e
    | .ok fixedUrl =>
      match env.resolve fixedUrl ctx.currentUrl with
      | none => .error ("Invalid URL: " ++ fixedUrl, s)
      | some absoluteUrl => .ok { s with assetSet := addAsset s.assetSet absoluteUrl.href }

/-- All `srcset` entries, left to right. -/
def processSrcsetEntries (env : Env) (ctx : RewriteCtx) :
    List String → CrawlState → Except (String × CrawlState) CrawlState
  | [], s => .ok s
  | e :: rest, s =>
    match processSrcsetEntry env ctx e s with
    | .error er => .error er
    | .ok s' => processSrcsetEntries env ctx rest s'

/-- One `<img>`: `src`, then `data-src`, then `srcset` (falsy `srcset`
skipped). -/
def processImg (env : Env) (ctx : RewriteCtx) (img : ImgEl) (s : CrawlState) :
    Except (String × CrawlState) CrawlState :=
  match processImgAttr env ctx img.src s with
  | .error e => .error e
  | .ok s1 =>
    match processImgAttr env ctx img.dataSrc s1 with
    | .error e => .error e
    | .ok s2 =>
      match img.srcset with
      | none => .ok s2
      | some srcset =>
        if srcset = "" then .ok s2
        else processSrcsetEntries env ctx (srcset.splitOn ",") s2

/-- All `<img>` elements, in document order. -/
def processImgs (env : Env) (ctx : RewriteCtx) :
    List ImgEl → CrawlState → Except (String × CrawlState) CrawlState
  | [], s => .ok s
  | img :: rest, s =>
    match processImg env ctx img s with
    | .error e => .error e
    | .ok s' => processImgs env ctx rest s'

/-- A `link[href]` / `script[src]` value (lines 190–207): skip falsy and
`data:` values, else resolve (uncaught on failure) and register the asset. -/
def processAssetRef (env : Env) (ctx : RewriteCtx) (v : String) (s : CrawlState) :
    Except (String × CrawlState) CrawlState :=
  if v = "" || strStartsWith v "data:" then .ok s
  else
    match env.resolve v ctx.currentUrl with
    | none => .error ("Invalid URL: " ++ v, s)
    | some absoluteUrl => .ok { s with assetSet := addAsset s.assetSet absoluteUrl.href }

/-- All `link[href]` (resp. `script[src]`) values. -/
def processAssetRefs (env : Env) (ctx : RewriteCtx) :
    List String → CrawlState → Except (String × CrawlState) CrawlState
  | [], s => .ok s
  | v :: rest, s =>
    match processAssetRef env ctx v s with
    | .error e => .error e
    | .ok s' => processAssetRefs env ctx rest s'

/-- One `a[href]` (lines 208–231).  Skippable hrefs are untouched; the
resolved target is compared by origin; same-origin targets are normalized
(query/fragment cleared, directory-style trailing slash), the attribute is
rewritten to the normalized path (returned as the first component), and the
normalized href is enqueued when not visited, not queued, and (when robots
are respected) allowed — the allowance check reparses the href string, as
`isUrlAllowed` does.  Foreign-origin anchors are left untouched. -/
def processAnchor (env : Env) (ctx : RewriteCtx) (href : String) (s : CrawlState) :
    Except (String × CrawlState) (String × CrawlState) :=
  if isSkippableHref href then .ok (href, s)
  else
    match env.resolve href ctx.currentUrl with
    | none => .error ("Invalid URL: " ++ href, s)
    | some absoluteUrl =>
      if absoluteUrl.origin = ctx.rootOrigin then
        let absNoQF : Url := { absoluteUrl with search := "", hash := "" }
        let prettyPath :=
          if extname absNoQF.pathname = "" && !strEndsWith absNoQF.pathname "/"
          then absNoQF.pathname ++ "/" else absNoQF.pathname
        if s.visitedPages.contains absNoQF.href then .ok (prettyPath, s)
        else if s.pageQueue.contains absNoQF.href then .ok (prettyPath, s)
        else if ctx.respectRobots then
          match env.parseUrl absNoQF.href with
          | none => .error ("Invalid URL: " ++ absNoQF.href, s)
          | some u =>
            if isUrlAllowed u.pathname ctx.disallowedPaths then
              .ok (prettyPath, pushQueue s absNoQF.href)
            else .ok (prettyPath, s)
        else .ok (prettyPath, pushQueue s absNoQF.href)
      else .ok (href, s)

/-- All `a[href]` values. -/
def processAnchors (env : Env) (ctx : RewriteCtx) :
    List String → CrawlState → Except (String × CrawlState) CrawlState
  | [], s => .ok s
  | h :: rest, s =>
    match processAnchor env ctx h s with
    | .error e => .error e
    | .ok (_, s') => processAnchors env ctx rest s'

/-- One whole document: images, then `link[href]`, then `script[src]`, then
anchors, in the source's traversal order. -/
def processDoc (env : Env) (ctx : RewriteCtx) (doc : Doc) (s : CrawlState) :
    Except (String × CrawlState) CrawlState :=
  match processImgs env ctx doc.imgs s with
  | .error e => .error e
  | .ok s1 =>
    match processAssetRefs env ctx doc.linkHrefs s1 with
    | .error e => .error e
    | .ok s2 =>
      match processAssetRefs env ctx doc.scriptSrcs s2 with
      | .error e => .error e
      | .ok s3 => processAnchors env ctx doc.anchorHrefs s3

end AgentClone

namespace AgentClone

/-! ## The crawl loop -/

/-- The configuration record of `cloneWebsite` with its defaults.
`concurrency` caps simultaneous asset downloads only; it never affects the
final state and is unused by the model. -/
structure CloneOptions where
  outDir : String := "cloned-websites"
  maxPages : Nat := 10
  mirrorExternalAssets : Bool := true
  concurrency : Nat := 10
  respectRobots : Bool := true

/-- Outcome of one iteration of the `while` loop: loop exit (`halt`),
continue (`next`), or an uncaught throw (`err`, carrying the state whose
externally visible effects had already happened). -/
inductive StepOut where
  | halt (s : CrawlState)
  | next (s : CrawlState)
  | err (e : String) (s : CrawlState)
deriving Repr

/-- The state carried by a step outcome. -/
def stepState : StepOut → CrawlState
  | .halt s => s
  | .next s => s
  | .err _ s => s

/-- The visit path of one loop iteration (lines 121–235): mark visited,
fetch (rejection caught → continue), skip non-HTML responses, read the body
(uncaught), rewrite the document (resolution throws uncaught), reparse the
current URL, and write the page file (uncaught). -/
def visitPage (env : Env) (cfg : CloneOptions) (robots : RobotsRules)
    (rootOrigin outputDir currentUrl : String) (s0 : CrawlState) : StepOut :=
  let s1 := { s0 with visitedPages := s0.visitedPages ++ [currentUrl],
                      fetchTrace := s0.fetchTrace ++ [currentUrl] }
  match env.fetch currentUrl with
  | .error _ => .next s1
  | .ok response =>
    let contentType := response.contentTypeHdr.getD ""
    if !strIncludes contentType "text/html" then .next s1
    else
      match response.textRes with
      | .error e => .err e s1
      | .ok html =>
        let doc := env.load html
        let ctx : RewriteCtx :=
          ⟨rootOrigin, cfg.respectRobots, robots.disallowedPaths, currentUrl⟩
        match processDoc env ctx doc s1 with
        | .error (e, s2) => .err e s2
        | .ok s2 =>
          match env.parseUrl currentUrl with
          | none => .err ("Invalid URL: " ++ currentUrl) s2
          | some u =>
            let filePath := mapTargetUrlToFilePath outputDir u
            if env.writeOk filePath then
              .next { s2 with writtenPages := s2.writtenPages ++ [filePath] }
            else .err ("EACCES: write failed: " ++ filePath) s2

/-- One iteration of the `while` loop (lines 114–236): exit on empty queue
or exhausted budget; dequeue; skip already-visited URLs; when robots are
respected, reparse the URL (uncaught on failure) and skip disallowed ones;
otherwise visit. -/
def crawlStep (env : Env) (cfg : CloneOptions) (robots : RobotsRules)
    (rootOrigin outputDir : String) (s : CrawlState) : StepOut :=
  match s.pageQueue with
  | [] => .halt s
  | currentUrl :: rest =>
    if cfg.maxPages ≤ s.visitedPages.length then .halt s
    else
      let s0 := { s with pageQueue := rest }
      if s.visitedPages.contains currentUrl then .next s0
      else if cfg.respectRobots then
        match env.parseUrl currentUrl with
        | none => .err ("Invalid URL: " ++ currentUrl) s0
        | some u =>
          if !isUrlAllowed u.pathname robots.disallowedPaths then .next s0
          else visitPage env cfg robots rootOrigin outputDir currentUrl s0
      else visitPage env cfg robots rootOrigin outputDir currentUrl s0

end AgentClone

namespace AgentClone

/-! ### Frame lemmas: the rewriter touches only `assetSet`, `pageQueue`,
`enqueued`, whatever the outcome -/

/-- The state carried by a rewriter outcome (the state of a thrown error is
the state whose effects had already happened). -/
def exState : Except (String × CrawlState) CrawlState → CrawlState
  | .ok s => s
  | .error (_, s) => s

/-- The state carried by an anchor outcome. -/
def exStateP : Except (String × CrawlState) (String × CrawlState) → CrawlState
  | .ok (_, s) => s
  | .error (_, s) => s

theorem processImgAttr_frame {env ctx value s} :
    (exState (processImgAttr env ctx value s)).visitedPages = s.visitedPages ∧
      (exState (processImgAttr env ctx value s)).pageQueue = s.pageQueue ∧
      (exState (processImgAttr env ctx value s)).enqueued = s.enqueued ∧
      (exState (processImgAttr env ctx value s)).writtenPages = s.writtenPages ∧
      (exState (processImgAttr env ctx value s)).fetchTrace = s.fetchTrace := by
  unfold processImgAttr
  repeat' split
  all_goals exact ⟨rfl, rfl, rfl, rfl, rfl⟩

theorem srcsetFixedUrl_err {env url s e}
    (h : srcsetFixedUrl env url s = .error e) : e.2 = s := by
  unfold srcsetFixedUrl at h
  repeat' split at h
  all_goals try injection h
  all_goals rename_i aeq
  all_goals rw [aeq.symm]

theorem processSrcsetEntry_frame {env ctx entry s} :
    (exState (processSrcsetEntry env ctx entry s)).visitedPages = s.visitedPages ∧
      (exState (processSrcsetEntry env ctx entry s)).pageQueue = s.pageQueue ∧
      (exState (processSrcsetEntry env ctx entry s)).enqueued = s.enqueued ∧
      (exState (processSrcsetEntry env ctx entry s)).writtenPages = s.writtenPages ∧
      (exState (processSrcsetEntry env ctx entry s)).fetchTrace = s.fetchTrace := by
  unfold processSrcsetEntry
  repeat' split
  all_goals try exact ⟨rfl, rfl, rfl, rfl, rfl⟩
  all_goals rename_i e heq
  all_goals obtain ⟨e1, e2⟩ := e
  all_goals have he := srcsetFixedUrl_err heq
  all_goals dsimp only [exState]
  all_goals subst he
  all_goals exact ⟨rfl, rfl, rfl, rfl, rfl⟩

theorem frame5_trans {s s' s'' : CrawlState}
    (h1 : s'.visitedPages = s.visitedPages ∧ s'.pageQueue = s.pageQueue ∧
      s'.enqueued = s.enqueued ∧ s'.writtenPages = s.writtenPages ∧
      s'.fetchTrace = s.fetchTrace)
    (h2 : s''.visitedPages = s'.visitedPages ∧ s''.pageQueue = s'.pageQueue ∧
      s''.enqueued = s'.enqueued ∧ s''.writtenPages = s'.writtenPages ∧
      s''.fetchTrace = s'.fetchTrace) :
    s''.visitedPages = s.visitedPages ∧ s''.pageQueue = s.pageQueue ∧
      s''.enqueued = s.enqueued ∧ s''.writtenPages = s.writtenPages ∧
      s''.fetchTrace = s.fetchTrace :=
  ⟨h2.1.trans h1.1, h2.2.1.trans h1.2.1, h2.2.2.1.trans h1.2.2.1,
   h2.2.2.2.1.trans h1.2.2.2.1, h2.2.2.2.2.trans h1.2.2.2.2⟩

theorem frame5_of_ok {e : Except (String × CrawlState) CrawlState} {s s' : CrawlState}
    (hall : (exState e).visitedPages = s.visitedPages ∧ (exState e).pageQueue = s.pageQueue ∧
      (exState e).enqueued = s.enqueued ∧ (exState e).writtenPages = s.writtenPages ∧
      (exState e).fetchTrace = s.fetchTrace)
    (h : e = .ok s') :
    s'.visitedPages = s.visitedPages ∧ s'.pageQueue = s.pageQueue ∧
      s'.enqueued = s.enqueued ∧ s'.writtenPages = s.writtenPages ∧
      s'.fetchTrace = s.fetchTrace := by
  rw [h] at hall
  exact hall

theorem processSrcsetEntries_frame {env ctx} :
    ∀ {entries : List String} {s},
      (exState (processSrcsetEntries env ctx entries s)).visitedPages = s.visitedPages ∧
        (exState (processSrcsetEntries env ctx entries s)).pageQueue = s.pageQueue ∧
        (exState (processSrcsetEntries env ctx entries s)).enqueued = s.enqueued ∧
        (exState (processSrcsetEntries env ctx entries s)).writtenPages = s.writtenPages ∧
        (exState (processSrcsetEntries env ctx entries s)).fetchTrace = s.fetchTrace := by
  intro entries
  induction entries with
  | nil => intro s; exact ⟨rfl, rfl, rfl, rfl, rfl⟩
  | cons e rest ih =>
    intro s
    unfold processSrcsetEntries
    cases hstep : processSrcsetEntry env ctx e s with
    | error er =>
      dsimp only
      have h := @processSrcsetEntry_frame env ctx e s
      rw [hstep] at h
      exact h
    | ok s1 =>
      dsimp only
      have h := @processSrcsetEntry_frame env ctx e s
      rw [hstep] at h
      exact frame5_trans h ih

theorem processImg_frame {env ctx img s} :
    (exState (processImg env ctx img s)).visitedPages = s.visitedPages ∧
      (exState (processImg env ctx img s)).pageQueue = s.pageQueue ∧
      (exState (processImg env ctx img s)).enqueued = s.enqueued ∧
      (exState (processImg env ctx img s)).writtenPages = s.writtenPages ∧
      (exState (processImg env ctx img s)).fetchTrace = s.fetchTrace := by
  unfold processImg
  cases h1 : processImgAttr env ctx img.src s with
  | error er =>
    dsimp only
    have h := @processImgAttr_frame env ctx img.src s
    rw [h1] at h
    exact h
  | ok s1 =>
    dsimp only
    have ha := @processImgAttr_frame env ctx img.src s
    rw [h1] at ha
    cases h2 : processImgAttr env ctx img.dataSrc s1 with
    | error er =>
      dsimp only
      have h := @processImgAttr_frame env ctx img.dataSrc s1
      rw [h2] at h
      exact frame5_trans ha h
    | ok s2 =>
      dsimp only
      have hb := @processImgAttr_frame env ctx img.dataSrc s1
      rw [h2] at hb
      have hab := frame5_trans ha hb
      cases img.srcset with
      | none => exact hab
      | some srcset =>
        dsimp only
        split
        · exact hab
        · exact frame5_trans hab (@processSrcsetEntries_frame env ctx (srcset.splitOn ",") s2)

theorem processImgs_frame {env ctx} :
    ∀ {imgs : List ImgEl} {s},
      (exState (processImgs env ctx imgs s)).visitedPages = s.visitedPages ∧
        (exState (processImgs env ctx imgs s)).pageQueue = s.pageQueue ∧
        (exState (processImgs env ctx imgs s)).enqueued = s.enqueued ∧
        (exState (processImgs env ctx imgs s)).writtenPages = s.writtenPages ∧
        (exState (processImgs env ctx imgs s)).fetchTrace = s.fetchTrace := by
  intro imgs
  induction imgs with
  | nil => intro s; exact ⟨rfl, rfl, rfl, rfl, rfl⟩
  | cons img rest ih =>
    intro s
    unfold processImgs
    cases hstep : processImg env ctx img s with
    | error er =>
      dsimp only
      have h := @processImg_frame env ctx img s
      rw [hstep] at h
      exact h
    | ok s1 =>
      dsimp only
      have h := @processImg_frame env ctx img s
      rw [hstep] at h
      exact frame5_trans h ih

theorem processAssetRef_frame {env ctx v s} :
    (exState (processAssetRef env ctx v s)).visitedPages = s.visitedPages ∧
      (exState (processAssetRef env ctx v s)).pageQueue = s.pageQueue ∧
      (exState (processAssetRef env ctx v s)).enqueued = s.enqueued ∧
      (exState (processAssetRef env ctx v s)).writtenPages = s.writtenPages ∧
      (exState (processAssetRef env ctx v s)).fetchTrace = s.fetchTrace := by
  unfold processAssetRef
  repeat' split
  all_goals exact ⟨rfl, rfl, rfl, rfl, rfl⟩

theorem processAssetRefs_frame {env ctx} :
    ∀ {vs : List String} {s},
      (exState (processAssetRefs env ctx vs s)).visitedPages = s.visitedPages ∧
        (exState (processAssetRefs env ctx vs s)).pageQueue = s.pageQueue ∧
        (exState (processAssetRefs env ctx vs s)).enqueued = s.enqueued ∧
        (exState (processAssetRefs env ctx vs s)).writtenPages = s.writtenPages ∧
        (exState (processAssetRefs env ctx vs s)).fetchTrace = s.fetchTrace := by
  intro vs
  induction vs with
  | nil => intro s; exact ⟨rfl, rfl, rfl, rfl, rfl⟩
  | cons v rest ih =>
    intro s
    unfold processAssetRefs
    cases hstep : processAssetRef env ctx v s with
    | error er =>
      dsimp only
      have h := @processAssetRef_frame env ctx v s
      rw [hstep] at h
      exact h
    | ok s1 =>
      dsimp only
      have h := @processAssetRef_frame env ctx v s
      rw [hstep] at h
      exact frame5_trans h ih

theorem processAnchor_frame {env ctx href s} :
    (exStateP (processAnchor env ctx href s)).visitedPages = s.visitedPages ∧
      (exStateP (processAnchor env ctx href s)).writtenPages = s.writtenPages ∧
      (exStateP (processAnchor env ctx href s)).fetchTrace = s.fetchTrace := by
  simp only [processAnchor]
  repeat' split
  all_goals exact ⟨rfl, rfl, rfl⟩

theorem frame3_trans {s s' s'' : CrawlState}
    (h1 : s'.visitedPages = s.visitedPages ∧ s'.writtenPages = s.writtenPages ∧
      s'.fetchTrace = s.fetchTrace)
    (h2 : s''.visitedPages = s'.visitedPages ∧ s''.writtenPages = s'.writtenPages ∧
      s''.fetchTrace = s'.fetchTrace) :
    s''.visitedPages = s.visitedPages ∧ s''.writtenPages = s.writtenPages ∧
      s''.fetchTrace = s.fetchTrace :=
  ⟨h2.1.trans h1.1, h2.2.1.trans h1.2.1, h2.2.2.trans h1.2.2⟩

theorem frame5_to_frame3 {s s' : CrawlState}
    (h : s'.visitedPages = s.visitedPages ∧ s'.pageQueue = s.pageQueue ∧
      s'.enqueued = s.enqueued ∧ s'.writtenPages = s.writtenPages ∧
      s'.fetchTrace = s.fetchTrace) :
    s'.visitedPages = s.visitedPages ∧ s'.writtenPages = s.writtenPages ∧
      s'.fetchTrace = s.fetchTrace :=
  ⟨h.1, h.2.2.2.1, h.2.2.2.2⟩

theorem processAnchors_frame {env ctx} :
    ∀ {hrefs : List String} {s},
      (exState (processAnchors env ctx hrefs s)).visitedPages = s.visitedPages ∧
        (exState (processAnchors env ctx hrefs s)).writtenPages = s.writtenPages ∧
        (exState (processAnchors env ctx hrefs s)).fetchTrace = s.fetchTrace := by
  intro hrefs
  induction hrefs with
  | nil => intro s; exact ⟨rfl, rfl, rfl⟩
  | cons href rest ih =>
    intro s
    unfold processAnchors
    cases hstep : processAnchor env ctx href s with
    | error er =>
      dsimp only
      have h := @processAnchor_frame env ctx href s
      rw [hstep] at h
      exact h
    | ok ps =>
      obtain ⟨p, s1⟩ := ps
      dsimp only
      have h := @processAnchor_frame env ctx href s
      rw [hstep] at h
      exact frame3_trans h ih

theorem processDoc_frameAll {env ctx doc s} :
    (exState (processDoc env ctx doc s)).visitedPages = s.visitedPages ∧
      (exState (processDoc env ctx doc s)).writtenPages = s.writtenPages ∧
      (exState (processDoc env ctx doc s)).fetchTrace = s.fetchTrace := by
  unfold processDoc
  cases h1 : processImgs env ctx doc.imgs s with
  | error er =>
    dsimp only
    have h := @processImgs_frame env ctx doc.imgs s
    rw [h1] at h
    exact frame5_to_frame3 h
  | ok s1 =>
    dsimp only
    have ha := @processImgs_frame env ctx doc.imgs s
    rw [h1] at ha
    cases h2 : processAssetRefs env ctx doc.linkHrefs s1 with
    | error er =>
      dsimp only
      have h := @processAssetRefs_frame env ctx doc.linkHrefs s1
      rw [h2] at h
      exact frame3_trans (frame5_to_frame3 ha) (frame5_to_frame3 h)
    | ok s2 =>
      dsimp only
      have hb := @processAssetRefs_frame env ctx doc.linkHrefs s1
      rw [h2] at hb
      cases h3 : processAssetRefs env ctx doc.scriptSrcs s2 with
      | error er =>
        dsimp only
        have h := @processAssetRefs_frame env ctx doc.scriptSrcs s2
        rw [h3] at h
        exact frame3_trans (frame3_trans (frame5_to_frame3 ha) (frame5_to_frame3 hb))
          (frame5_to_frame3 h)
      | ok s3 =>
        dsimp only
        have hc := @processAssetRefs_frame env ctx doc.scriptSrcs s2
        rw [h3] at hc
        exact frame3_trans
          (frame3_trans (frame3_trans (frame5_to_frame3 ha) (frame5_to_frame3 hb))
            (frame5_to_frame3 hc))
          (@processAnchors_frame env ctx doc.anchorHrefs s3)

theorem processDoc_frame {env ctx doc s s'}
    (h : processDoc env ctx doc s = .ok s') :
    s'.visitedPages = s.visitedPages ∧ s'.writtenPages = s.writtenPages ∧
      s'.fetchTrace = s.fetchTrace := by
  have hall := @processDoc_frameAll env ctx doc s
  rw [h] at hall
  exact hall


theorem visitPage_next_spec {env cfg robots ro od u s0 s'}
    (h : visitPage env cfg robots ro od u s0 = .next s') :
    s'.visitedPages = s0.visitedPages ++ [u] := by
  simp only [visitPage] at h
  repeat' split at h
  all_goals first
  | (injection h with h; subst h;
     first
     | rfl
     | (rename_i s2 _ _ _ _
        obtain ⟨h1, _, _⟩ := processDoc_frame (by assumption)
        exact h1))
  | injection h

theorem crawlStep_next_spec {env cfg robots ro od s s'}
    (h : crawlStep env cfg robots ro od s = .next s') :
    (s'.visitedPages = s.visitedPages ∧ s'.pageQueue.length < s.pageQueue.length) ∨
      (s'.visitedPages.length = s.visitedPages.length + 1 ∧
        s.visitedPages.length < cfg.maxPages) := by
  simp only [crawlStep] at h
  split at h
  · injection h
  · rename_i currentUrl rest hq
    split at h
    · injection h
    · rename_i hbudget
      split at h
      · injection h with h
        subst h
        exact Or.inl ⟨rfl, by simp [hq]⟩
      · split at h
        · split at h
          · injection h
          · rename_i u hu
            split at h
            · injection h with h
              subst h
              exact Or.inl ⟨rfl, by simp [hq]⟩
            · refine Or.inr ⟨?_, by omega⟩
              have hv := visitPage_next_spec h
              rw [hv]
              simp
        · refine Or.inr ⟨?_, by omega⟩
          have hv := visitPage_next_spec h
          rw [hv]
          simp

end AgentClone

namespace AgentClone

/-- The whole `while` loop: iterate `crawlStep` until it halts, propagating
the uncaught throws as `Except.error`.  Terminates because every iteration
either grows the visited set (bounded by `maxPages`) or shrinks the
queue without growing it. -/
def crawlLoop (env : Env) (cfg : CloneOptions) (robots : RobotsRules)
    (rootOrigin outputDir : String) (s : CrawlState) : Except String CrawlState :=
  match h : crawlStep env cfg robots rootOrigin outputDir s with
  | .halt s' => .ok s'
  | .err e _ => .error e
  | .next s' => crawlLoop env cfg robots rootOrigin outputDir s'
termination_by (cfg.maxPages - s.visitedPages.length, s.pageQueue.length)
decreasing_by
  rcases crawlStep_next_spec h with ⟨hv, hq⟩ | ⟨hv, hb⟩
  · rw [hv]
    exact Prod.Lex.right _ hq
  · exact Prod.Lex.left _ _ (by omega)

/-- One-step unfolding of `crawlLoop` (the well-founded definition does not
reduce definitionally). -/
theorem crawlLoop_eq (env : Env) (cfg : CloneOptions) (robots : RobotsRules)
    (rootOrigin outputDir : String) (s : CrawlState) :
    crawlLoop env cfg robots rootOrigin outputDir s =
      match crawlStep env cfg robots rootOrigin outputDir s with
      | .halt s' => .ok s'
      | .err e _ => .error e
      | .next s' => crawlLoop env cfg robots rootOrigin outputDir s' := by
  rw [crawlLoop.eq_def]
  split <;> rename_i hstep <;> rw [hstep]

/-- States reachable from `s` by iterating a step function; the claims about
"throughout the crawl" quantify over these. -/
inductive Reaches (f : CrawlState → StepOut) : CrawlState → CrawlState → Prop where
  | refl (s : CrawlState) : Reaches f s s
  | step {s t t' : CrawlState} : Reaches f s t → f t = .next t' → Reaches f s t'

/-! ## The asset download phase and the orchestrator -/

/-- One asset download (lines 239–268 of the source): every failure path —
unparsable URL, non-HTTP(S) scheme, skipped foreign origin, fetch rejection,
non-success status (`throw new Error` caught by the same handler), body-read
failure, write failure — is absorbed and yields `none`; a successful
download writes and returns the asset's mapped path under `outputDir`. -/
def downloadAsset (env : Env) (outputDir rootOrigin : String)
    (mirrorExternalAssets : Bool) (assetUrl : String) : Option String :=
  match env.parseUrl assetUrl with
  | none => none
  | some url =>
    if url.protocol ≠ "http:" ∧ url.protocol ≠ "https:" then none
    else if url.origin ≠ rootOrigin ∧ ¬mirrorExternalAssets then none
    else
      match env.fetch assetUrl with
      | .error _ => none
      | .ok response =>
        if !response.ok then none
        else
          match response.bufRes with
          | .error _ => none
          | .ok _ =>
            let localPath := localizeAssetPath url
            let filePath := pathJoin outputDir localPath
            if env.writeOk filePath then some filePath else none

/-- The `statistics` record of the Clone Result. -/
structure CloneStatistics where
  pagesCloned : Nat
  assetsDownloaded : Nat
  maxPagesReached : Bool
  robotsRespected : Bool
deriving DecidableEq, Repr

/-- The result record `cloneWebsite` resolves with. -/
structure CloneResult where
  success : Bool
  message : String
  outputPath : String
  statistics : CloneStatistics
deriving DecidableEq, Repr

/-- A completed run: the returned result plus the observable effects (final
crawl state and the asset file paths written by the download phase). -/
structure CloneRun where
  result : CloneResult
  finalState : CrawlState
  writtenAssets : List String
deriving DecidableEq, Repr

/-- The loop state at line 107–108: empty visited set, queue seeded with the
root href (recorded as the first `enqueued` entry). -/
def initState (rootHref : String) : CrawlState :=
  { visitedPages := [], pageQueue := [rootHref], assetSet := [], enqueued := [rootHref],
    writtenPages := [], fetchTrace := [] }

/-- `cloneWebsite(targetUrl, options)`.  `new URL(targetUrl)` throws on an
invalid target (uncaught); robots are resolved only when respected (the
rules otherwise stay empty); `fs.emptyDir` failure throws; then the crawl
loop runs, the deduplicated asset set is downloaded (each asset
independently fallible), and the result record is assembled with
`pagesCloned = visitedPages.size`, `assetsDownloaded = assetSet.size`,
`maxPagesReached = visitedPages.size >= maxPages`. -/
def cloneWebsite (env : Env) (targetUrl : String) (options : CloneOptions) :
    Except String CloneRun :=
  match env.parseUrl targetUrl with
  | none => .error ("Invalid URL: " ++ targetUrl)
  | some root =>
    let rootOrigin := root.origin
    let outputDir := pathJoin env.cwd options.outDir
    let robotsRules := if options.respectRobots then parseRobots env root else ⟨[], 0⟩
    if !env.emptyDirOk then .error "emptyDir failed"
    else
      match crawlLoop env options robotsRules rootOrigin outputDir (initState root.href) with
      | .error e => .error e
      | .ok fin =>
        let writtenAssets :=
          fin.assetSet.filterMap
            (downloadAsset env outputDir rootOrigin options.mirrorExternalAssets)
        .ok { result := { success := true,
                          message := "✅ Website cloned successfully",
                          outputPath := outputDir,
                          statistics := { pagesCloned := fin.visitedPages.length,
                                          assetsDownloaded := fin.assetSet.length,
                                          maxPagesReached :=
                                            decide (options.maxPages ≤ fin.visitedPages.length),
                                          robotsRespected := options.respectRobots } },
              finalState := fin,
              writtenAssets := writtenAssets }

end AgentClone

namespace AgentClone

/-! ## Characterizations of the string primitives -/

theorem listIsPrefix_iff {p l : List Char} : listIsPrefix p l = true ↔ p <+: l := by
  induction p generalizing l with
  | nil => simp [listIsPrefix]
  | cons a as ih =>
    cases l with
    | nil => simp [listIsPrefix]
    | cons b bs => simp [listIsPrefix, List.cons_prefix_cons, ih, and_comm]

theorem strStartsWith_iff {s pre : String} :
    strStartsWith s pre = true ↔ pre.data <+: s.data := listIsPrefix_iff

theorem strEndsWith_iff {s suf : String} :
    strEndsWith s suf = true ↔ suf.data <:+ s.data := by
  unfold strEndsWith
  rw [listIsPrefix_iff, List.reverse_prefix]

theorem listIncludes_iff {needle hay : List Char} :
    listIncludes needle hay = true ↔ needle <:+: hay := by
  unfold listIncludes
  rw [List.any_eq_true]
  constructor
  · rintro ⟨t, ht, hp⟩
    rw [List.mem_tails t hay] at ht
    rw [listIsPrefix_iff] at hp
    exact List.infix_iff_prefix_suffix.mpr ⟨t, hp, ht⟩
  · intro hinf
    obtain ⟨t, hp, ht⟩ := List.infix_iff_prefix_suffix.mp hinf
    exact ⟨t, (List.mem_tails t hay).mpr ht, listIsPrefix_iff.mpr hp⟩

theorem strIncludes_iff {hay needle : String} :
    strIncludes hay needle = true ↔ needle.data <:+: hay.data := listIncludes_iff

/-! ## Claim C5: the path-allowed predicate -/

/-- Claim C5: for every candidate URL path and every list of disallow
patterns, `isUrlAllowed` marks the path as disallowed (returns `false`)
exactly when some pattern equals the path, or the path starts with the
pattern followed by `'/'`, or the pattern ends in `'*'` and the path starts
with the pattern's prefix before the `'*'`; the URL is crawlable iff it is
not disallowed.  (The source checks the first two alternatives only for
patterns not ending in `'*'`, but for a `'*'` pattern both are subsumed by
its prefix rule, so the disjunction is equivalent.) -/
theorem claim_C5_path_allowed_predicate :
    ∀ (pathname : String) (disallowedPaths : List String),
      isUrlAllowed pathname disallowedPaths = false ↔
        ∃ p ∈ disallowedPaths,
          p = pathname ∨ strStartsWith pathname (p ++ "/") = true ∨
            (strEndsWith p "*" = true ∧ strStartsWith pathname ⟨p.data.dropLast⟩ = true) := by
  intro pathname dis
  unfold isUrlAllowed
  rw [Bool.not_eq_false']
  rw [List.any_eq_true]
  constructor
  · rintro ⟨p, hp, hf⟩
    refine ⟨p, hp, ?_⟩
    by_cases hstar : strEndsWith p "*" = true
    · rw [if_pos hstar] at hf
      exact Or.inr (Or.inr ⟨hstar, hf⟩)
    · rw [if_neg hstar] at hf
      rcases Bool.or_eq_true_iff.mp hf with h | h
      · exact Or.inl (eq_of_beq h).symm
      · exact Or.inr (Or.inl h)
  · rintro ⟨p, hp, hcase⟩
    refine ⟨p, hp, ?_⟩
    by_cases hstar : strEndsWith p "*" = true
    · rw [if_pos hstar]
      rcases hcase with rfl | h | ⟨_, h⟩
      · exact strStartsWith_iff.mpr (List.dropLast_prefix p.data)
      · rw [strStartsWith_iff] at h ⊢
        refine List.IsPrefix.trans ?_ h
        rw [String.data_append]
        exact (List.dropLast_prefix p.data).trans (List.prefix_append _ _)
      · exact h
    · rw [if_neg hstar]
      rcases hcase with rfl | h | ⟨hstar', _⟩
      · simp
      · simp [h]
      · exact absurd hstar' hstar

/-! ## Claim C9: robots failures degrade to the empty policy -/

/-- Claim C9: for every origin, if fetching `/robots.txt` rejects (network
error or timeout) or resolves with a non-success status, `parseRobots`
returns exactly the empty policy `{disallowedPaths := [], crawlDelay := 0}`.
`parseRobots` is a total function of the environment — the `try/catch`
swallows every failure, so none reaches its caller. -/
theorem claim_C9_robots_failure_absorbed :
    (∀ (env : Env) (baseUrl : Url) (e : String),
        env.fetch (robotsUrlOf baseUrl).href = .error e →
        parseRobots env baseUrl = ⟨[], 0⟩) ∧
    (∀ (env : Env) (baseUrl : Url) (response : Response),
        env.fetch (robotsUrlOf baseUrl).href = .ok response → response.ok = false →
        parseRobots env baseUrl = ⟨[], 0⟩) := by
  constructor
  · intro env baseUrl e h
    unfold parseRobots
    rw [h]
  · intro env baseUrl response h hok
    unfold parseRobots
    rw [h]
    simp [hok]

end AgentClone

namespace AgentClone

/-! ## Concrete worlds used by the witness and counterexample theorems -/

/-- `http://site.test/` — the root URL of the concrete test site. -/
def urlRoot : Url := ⟨"http:", "site.test", "/", "", ""⟩

/-- `http://cdn.test/x.png` — a foreign-origin asset. -/
def urlCdnPng : Url := ⟨"http:", "cdn.test", "/x.png", "", ""⟩

/-- `http://site.test/about` — a same-origin page target. -/
def urlAbout : Url := ⟨"http:", "site.test", "/about", "", ""⟩

/-- The empty document. -/
def docEmpty : Doc := ⟨[], [], [], []⟩

/-- A document whose single element is `<img src="http://cdn.test/x.png">`. -/
def docOneImg : Doc := ⟨[⟨some "http://cdn.test/x.png", none, none⟩], [], [], []⟩

/-- A successful HTML response with the given body. -/
def respHtml (body : String) : Response := ⟨true, 200, some "text/html", .ok body, .ok ()⟩

/-- An HTTP 404 response. -/
def resp404 : Response := ⟨false, 404, some "text/plain", .ok "", .ok ()⟩

/-- A resolved HTML response whose body read fails. -/
def respBodyFail : Response := ⟨true, 200, some "text/html", .error "body stream aborted", .ok ()⟩

/-- A world whose network is entirely down and whose URL parser rejects
everything; the filesystem works. -/
def envNetDown : Env :=
  { cwd := "/cwd", fetch := fun _ => .error "ETIMEDOUT", parseUrl := fun _ => none,
    resolve := fun _ _ => none, decodeURIComponent := fun s => some s,
    load := fun _ => docEmpty, emptyDirOk := true, writeOk := fun _ => true }

/-- A world whose every fetch resolves to HTTP 404. -/
def envAll404 : Env :=
  { cwd := "/cwd", fetch := fun _ => .ok resp404, parseUrl := fun _ => none,
    resolve := fun _ _ => none, decodeURIComponent := fun s => some s,
    load := fun _ => docEmpty, emptyDirOk := true, writeOk := fun _ => true }

end AgentClone

namespace AgentClone

/-- Witness for claim C9 at concrete worlds: a network-down robots fetch and
an HTTP 404 robots fetch both yield the empty policy. -/
theorem claim_C9_witness :
    parseRobots envNetDown urlRoot = ⟨[], 0⟩ ∧ parseRobots envAll404 urlRoot = ⟨[], 0⟩ :=
  ⟨claim_C9_robots_failure_absorbed.1 envNetDown urlRoot "ETIMEDOUT" rfl,
   claim_C9_robots_failure_absorbed.2 envAll404 urlRoot resp404 rfl rfl⟩

end AgentClone

namespace AgentClone

/-! ## Claim C7: shape and purity of the asset path mapper -/

theorem splitChar_cons (c a : Char) (rest : List Char) :
    splitChar c (a :: rest) =
      match splitChar c rest with
      | [] => [[]]
      | h :: t => if a = c then [] :: h :: t else (a :: h) :: t := rfl

theorem splitChar_ne_nil {c : Char} {s : List Char} : splitChar c s ≠ [] := by
  cases s with
  | nil => simp [splitChar]
  | cons a rest =>
    rw [splitChar_cons]
    cases splitChar c rest with
    | nil => simp
    | cons h t =>
      dsimp only
      split <;> simp

theorem not_mem_splitChar {c : Char} {s : List Char} : ∀ p ∈ splitChar c s, c ∉ p := by
  induction s with
  | nil => simp [splitChar]
  | cons a rest ih =>
    intro p hp
    rw [splitChar_cons] at hp
    cases hsp : splitChar c rest with
    | nil => exact absurd hsp splitChar_ne_nil
    | cons h t =>
      rw [hsp] at hp
      dsimp only at hp
      by_cases hac : a = c
      · rw [if_pos hac] at hp
        rcases List.mem_cons.mp hp with rfl | hp'
        · simp
        · exact ih p (hsp ▸ hp')
      · rw [if_neg hac] at hp
        rcases List.mem_cons.mp hp with rfl | hp'
        · intro hmem
          rcases List.mem_cons.mp hmem with rfl | hmem'
          · exact hac rfl
          · exact ih h (hsp ▸ List.mem_cons_self h t) hmem'
        · exact ih p (hsp ▸ List.mem_cons_of_mem h hp')

theorem joinWith_not_mem {c : Char} {sep : List Char} (hc : c ∉ sep) :
    ∀ {xs : List (List Char)}, (∀ x ∈ xs, c ∉ x) → c ∉ joinWith sep xs := by
  intro xs
  induction xs with
  | nil => intro _; simp [joinWith]
  | cons x ys ih =>
    intro hall
    cases ys with
    | nil => simpa [joinWith] using hall x (List.mem_cons_self x [])
    | cons y zs =>
      unfold joinWith
      simp only [List.mem_append]
      push_neg
      refine ⟨⟨hall x (List.mem_cons_self x _), hc⟩, ?_⟩
      exact ih (fun z hz => hall z (List.mem_cons_of_mem x hz))

theorem dropWhile_eq_self_of_not {p : Char → Bool} {l : List Char}
    (h : ∀ a ∈ l, p a = false) : l.dropWhile p = l := by
  cases l with
  | nil => rfl
  | cons a t =>
    rw [List.dropWhile_cons, h a (List.mem_cons_self a t)]
    simp

theorem takeWhile_eq_self_of_all {p : Char → Bool} {l : List Char}
    (h : ∀ a ∈ l, p a = true) : l.takeWhile p = l := by
  induction l with
  | nil => rfl
  | cons a t ih =>
    rw [List.takeWhile_cons, h a (List.mem_cons_self a t)]
    simp only [if_true]
    rw [ih (fun b hb => h b (List.mem_cons_of_mem a hb))]

theorem nodeBasename_no_slash {p : List Char} (h : '/' ∉ p) : nodeBasename p = p := by
  unfold nodeBasename
  have h1 : p.reverse.dropWhile (· = '/') = p.reverse := by
    refine dropWhile_eq_self_of_not (fun a ha => ?_)
    rw [List.mem_reverse] at ha
    simp only [decide_eq_false_iff_not]
    intro heq
    exact h (heq ▸ ha)
  rw [h1, List.reverse_reverse]
  have h2 : p.reverse.takeWhile (· ≠ '/') = p.reverse := by
    refine takeWhile_eq_self_of_all (fun a ha => ?_)
    rw [List.mem_reverse] at ha
    simp only [ne_eq, decide_eq_true_eq]
    intro heq
    exact h (heq ▸ ha)
  show (p.reverse.takeWhile (· ≠ '/')).reverse = p
  rw [h2, List.reverse_reverse]

theorem nodeBasename_flatten (J : List Char) (hJ : '/' ∉ J) :
    nodeBasename (if J = [] then "asset".data else J) = (if J = [] then "asset".data else J) := by
  by_cases h : J = []
  · rw [if_pos h]
    decide
  · rw [if_neg h]
    exact nodeBasename_no_slash hJ

theorem hexOfBytes_length : ∀ (bs : List Nat), (hexOfBytes bs).length = 2 * bs.length := by
  intro bs
  induction bs with
  | nil => rfl
  | cons b t ih =>
    simp only [hexOfBytes, byteHex, List.length_append, List.length_cons,
      List.length_nil, ih]
    omega

theorem mem_hexOfBytes {c : Char} : ∀ {bs : List Nat}, c ∈ hexOfBytes bs → c ∈ hexChars := by
  intro bs
  induction bs with
  | nil => simp [hexOfBytes]
  | cons b t ih =>
    intro hc
    rcases List.mem_append.mp hc with h | h
    · rcases List.mem_cons.mp h with rfl | h'
      · exact List.get_mem _ _ _
      · rcases List.mem_cons.mp h' with rfl | h''
        · exact List.get_mem _ _ _
        · simp at h''
    · exact ih h

theorem md5Bytes_length (msg : List Nat) : (md5Bytes msg).length = 16 := by
  simp [md5Bytes, leBytes4]

theorem md5HexChars_length (s : String) : (md5HexChars s).length = 32 := by
  unfold md5HexChars
  rw [hexOfBytes_length, md5Bytes_length]

/-- Claim C7: the asset path mapper is a pure deterministic function of the
asset URL — equal URLs yield the identical local path — and its value always
has the form `assets/<hash>-<basename>` where the hash is the 6-character
prefix of the (32-character lowercase hex) MD5 of the full URL, every hash
character is a hex digit, and the basename is the URL's nonempty path
segments joined with `'_'`, falling back to the literal `"asset"` when that
flattening is empty.  (The source additionally pipes the flattened name
through `path.basename`, which is the identity here because the flattening
contains no separator.) -/
theorem claim_C7_asset_path_shape :
    ∀ (u v : Url),
      (u = v → localizeAssetPath u = localizeAssetPath v) ∧
      ∃ (hash base : List Char),
        localizeAssetPath u = ⟨"assets/".data ++ hash ++ ['-'] ++ base⟩ ∧
        hash = (md5HexChars u.href).take 6 ∧
        hash.length = 6 ∧
        (∀ c ∈ hash, c ∈ hexChars) ∧
        base = (if joinWith ['_'] ((splitChar '/' u.pathname.data).filter (fun p => p ≠ [])) = []
                then "asset".data
                else joinWith ['_'] ((splitChar '/' u.pathname.data).filter (fun p => p ≠ []))) := by
  intro u v
  constructor
  · intro h; rw [h]
  · refine ⟨(md5HexChars u.href).take 6,
      (if joinWith ['_'] ((splitChar '/' u.pathname.data).filter (fun p => p ≠ [])) = []
       then "asset".data
       else joinWith ['_'] ((splitChar '/' u.pathname.data).filter (fun p => p ≠ []))),
      ?_, rfl, ?_, ?_, rfl⟩
    · have hJ : '/' ∉ joinWith ['_'] ((splitChar '/' u.pathname.data).filter (fun p => p ≠ [])) := by
        refine joinWith_not_mem (by decide) ?_
        intro x hx
        exact not_mem_splitChar x (List.mem_of_mem_filter hx)
      simp only [localizeAssetPath]
      rw [nodeBasename_flatten _ hJ]
    · rw [List.length_take, md5HexChars_length]
      decide
    · intro c hc
      exact mem_hexOfBytes (List.take_subset 6 _ hc)

end AgentClone

namespace AgentClone

/-! ## Claim C8: the page path mapper -/

theorem mapTarget_cases (outputDir : String) (u : Url) :
    mapTargetUrlToFilePath outputDir u =
      pathJoin outputDir
        ⟨(if strEndsWith u.pathname "/" = true then u.pathname ++ "index.html"
          else if extname u.pathname = "" then u.pathname ++ "/index.html"
          else u.pathname).data.dropWhile (· = '/')⟩ := rfl

theorem listIsPrefix_slash_dropWhile (l : List Char) :
    listIsPrefix ['/'] (l.dropWhile (· = '/')) = false := by
  induction l with
  | nil => rfl
  | cons a t ih =>
    rw [List.dropWhile_cons]
    by_cases h : a = '/'
    · have hd : (decide (a = '/')) = true := by simp [h]
      rw [hd, if_pos rfl]
      exact ih
    · have hd : (decide (a = '/')) = false := by simp [h]
      rw [hd, if_neg Bool.false_ne_true]
      simp only [listIsPrefix, Bool.and_eq_false_iff]
      left
      simp only [beq_eq_false_iff_ne, ne_eq]
      intro heq
      exact h heq.symm

theorem not_includes_of_prefix_parts {a b : List Char}
    (ha : listIncludes ['.', '.'] a = false) (hb : listIncludes ['.', '.'] b = false)
    (hbhead : b.head? ≠ some '.') :
    listIncludes ['.', '.'] (a ++ b) = false := by
  rw [Bool.eq_false_iff] at ha hb ⊢
  intro hab
  rw [listIncludes_iff] at hab
  induction a with
  | nil => exact hb (listIncludes_iff.mpr hab)
  | cons c a' ih =>
    rcases List.infix_cons_iff.mp hab with hpre | hinf
    · rcases List.cons_prefix_cons.mp hpre with ⟨rfl, htail⟩
      cases a' with
      | nil =>
        cases b with
        | nil => simp at htail
        | cons x xs =>
          rcases List.cons_prefix_cons.mp htail with ⟨rfl, _⟩
          exact hbhead rfl
      | cons d a'' =>
        rcases List.cons_prefix_cons.mp htail with ⟨rfl, _⟩
        refine ha (listIncludes_iff.mpr ?_)
        exact List.IsPrefix.isInfix ⟨a'', rfl⟩
    · refine ih ?_ hinf
      intro hinc
      refine ha ?_
      rw [listIncludes_iff] at hinc ⊢
      exact List.infix_cons hinc

end AgentClone

namespace AgentClone

theorem includes_dropWhile {dd : List Char} {p : Char → Bool} {l : List Char}
    (h : listIncludes dd l = false) : listIncludes dd (l.dropWhile p) = false := by
  rw [Bool.eq_false_iff] at h ⊢
  intro hx
  rw [listIncludes_iff] at hx
  exact h (listIncludes_iff.mpr (hx.trans (List.IsSuffix.isInfix (List.dropWhile_suffix p))))

/-- Claim C8: the page path mapper depends only on the URL's path (query and
fragment are immaterial); it appends `index.html` to directory paths,
`/index.html` to extension-less paths, and keeps the path otherwise; and the
result is always the output root, a separator, and a remainder with no
leading slash and (when the path has no `..`) no `..` — so it cannot escape
the output root. -/
theorem claim_C8_page_path_mapping :
    ∀ (outputDir : String) (u : Url),
      (mapTargetUrlToFilePath outputDir { u with search := "", hash := "" } =
        mapTargetUrlToFilePath outputDir u) ∧
      (strEndsWith u.pathname "/" = true →
        mapTargetUrlToFilePath outputDir u =
          pathJoin outputDir ⟨(u.pathname ++ "index.html").data.dropWhile (· = '/')⟩) ∧
      (strEndsWith u.pathname "/" = false → extname u.pathname = "" →
        mapTargetUrlToFilePath outputDir u =
          pathJoin outputDir ⟨(u.pathname ++ "/index.html").data.dropWhile (· = '/')⟩) ∧
      (strEndsWith u.pathname "/" = false → extname u.pathname ≠ "" →
        mapTargetUrlToFilePath outputDir u =
          pathJoin outputDir ⟨u.pathname.data.dropWhile (· = '/')⟩) ∧
      ∃ rest : String,
        mapTargetUrlToFilePath outputDir u = outputDir ++ "/" ++ rest ∧
        listIsPrefix ['/'] rest.data = false ∧
        (listIncludes ['.', '.'] u.pathname.data = false →
          listIncludes ['.', '.'] rest.data = false) := by
  intro outputDir u
  refine ⟨rfl, ?_, ?_, ?_, ?_⟩
  · intro h
    rw [mapTarget_cases, if_pos h]
  · intro h1 h2
    rw [mapTarget_cases, if_neg (by rw [h1]; exact Bool.false_ne_true), if_pos h2]
  · intro h1 h2
    rw [mapTarget_cases, if_neg (by rw [h1]; exact Bool.false_ne_true), if_neg h2]
  · refine ⟨⟨(if strEndsWith u.pathname "/" = true then u.pathname ++ "index.html"
        else if extname u.pathname = "" then u.pathname ++ "/index.html"
        else u.pathname).data.dropWhile (· = '/')⟩,
      mapTarget_cases outputDir u, listIsPrefix_slash_dropWhile _, ?_⟩
    intro hnd
    refine includes_dropWhile ?_
    split
    · rw [String.data_append]
      exact not_includes_of_prefix_parts hnd (by decide) (by decide)
    · split
      · rw [String.data_append]
        exact not_includes_of_prefix_parts hnd (by decide) (by decide)
      · exact hnd

end AgentClone

namespace AgentClone

/-! ## Claim C6: anchor rewriting and enqueueing -/

theorem contains_iff_mem {l : List String} {a : String} : l.contains a = true ↔ a ∈ l := by
  simp

/-- Claim C6: for an anchor whose href is not skippable (fragment-only,
`mailto:`, `tel:`, `javascript:`) and resolves against the page URL, if the
target is same-origin the attribute is rewritten to the target's path with
query and fragment stripped and a trailing `'/'` appended exactly when the
path has no extension and does not already end in `'/'`, and the normalized
href is enqueued iff it is not already visited, not already queued, and not
robots-disallowed; a foreign-origin target leaves the href and the whole
crawl state (the asset set included) untouched.  The hypothesis
`ctx.respectRobots = false → ctx.disallowedPaths = []` reflects the
orchestrator, which leaves the robots rules empty when they are not
respected, so "not robots-disallowed" is equivalent to the code's
`!respectRobots || isUrlAllowed(...)`. -/
theorem claim_C6_anchor_rewrite_enqueue :
    ∀ (env : Env) (ctx : RewriteCtx) (href : String) (s : CrawlState) (absoluteUrl u : Url),
      isSkippableHref href = false →
      env.resolve href ctx.currentUrl = some absoluteUrl →
      (ctx.respectRobots = false → ctx.disallowedPaths = []) →
      env.parseUrl (Url.href { absoluteUrl with search := "", hash := "" }) = some u →
      (absoluteUrl.origin = ctx.rootOrigin →
        processAnchor env ctx href s =
          .ok ((if extname absoluteUrl.pathname = "" ∧ strEndsWith absoluteUrl.pathname "/" = false
                then absoluteUrl.pathname ++ "/" else absoluteUrl.pathname),
            if Url.href { absoluteUrl with search := "", hash := "" } ∉ s.visitedPages ∧
               Url.href { absoluteUrl with search := "", hash := "" } ∉ s.pageQueue ∧
               isUrlAllowed u.pathname ctx.disallowedPaths = true
            then pushQueue s (Url.href { absoluteUrl with search := "", hash := "" })
            else s)) ∧
      (absoluteUrl.origin ≠ ctx.rootOrigin →
        processAnchor env ctx href s = .ok (href, s)) := by
  intro env ctx href s absoluteUrl u hskip hres hrules hparse
  have hpretty :
      (if (decide (extname absoluteUrl.pathname = "") && !strEndsWith absoluteUrl.pathname "/") = true
       then absoluteUrl.pathname ++ "/" else absoluteUrl.pathname) =
      (if extname absoluteUrl.pathname = "" ∧ strEndsWith absoluteUrl.pathname "/" = false
       then absoluteUrl.pathname ++ "/" else absoluteUrl.pathname) := by
    by_cases h1 : extname absoluteUrl.pathname = "" <;>
      by_cases h2 : strEndsWith absoluteUrl.pathname "/" = true <;>
      simp [h1, h2]
  constructor
  · intro horigin
    simp only [processAnchor]
    rw [if_neg (by rw [hskip]; exact Bool.false_ne_true), hres]
    simp only []
    rw [if_pos horigin, hpretty]
    by_cases hv : Url.href { absoluteUrl with search := "", hash := "" } ∈ s.visitedPages
    · have hcv : s.visitedPages.contains
          (Url.href { absoluteUrl with search := "", hash := "" }) = true :=
        contains_iff_mem.mpr hv
      have hcond : ¬(Url.href { absoluteUrl with search := "", hash := "" } ∉ s.visitedPages ∧
          Url.href { absoluteUrl with search := "", hash := "" } ∉ s.pageQueue ∧
          isUrlAllowed u.pathname ctx.disallowedPaths = true) := fun hc => hc.1 hv
      rw [if_pos hcv, if_neg hcond]
    · have hcv : ¬(s.visitedPages.contains
          (Url.href { absoluteUrl with search := "", hash := "" }) = true) :=
        fun hc => hv (contains_iff_mem.mp hc)
      rw [if_neg hcv]
      by_cases hq : Url.href { absoluteUrl with search := "", hash := "" } ∈ s.pageQueue
      · have hcq : s.pageQueue.contains
            (Url.href { absoluteUrl with search := "", hash := "" }) = true :=
          contains_iff_mem.mpr hq
        have hcond : ¬(Url.href { absoluteUrl with search := "", hash := "" } ∉ s.visitedPages ∧
            Url.href { absoluteUrl with search := "", hash := "" } ∉ s.pageQueue ∧
            isUrlAllowed u.pathname ctx.disallowedPaths = true) := fun hc => hc.2.1 hq
        rw [if_pos hcq, if_neg hcond]
      · have hcq : ¬(s.pageQueue.contains
            (Url.href { absoluteUrl with search := "", hash := "" }) = true) :=
          fun hc => hq (contains_iff_mem.mp hc)
        rw [if_neg hcq]
        by_cases hr : ctx.respectRobots = true
        · rw [if_pos hr, hparse]
          simp only []
          by_cases hallow : isUrlAllowed u.pathname ctx.disallowedPaths = true
          · have hcond : Url.href { absoluteUrl with search := "", hash := "" } ∉ s.visitedPages ∧
                Url.href { absoluteUrl with search := "", hash := "" } ∉ s.pageQueue ∧
                isUrlAllowed u.pathname ctx.disallowedPaths = true := ⟨hv, hq, hallow⟩
            rw [if_pos hallow, if_pos hcond]
          · have hcond : ¬(Url.href { absoluteUrl with search := "", hash := "" } ∉ s.visitedPages ∧
                Url.href { absoluteUrl with search := "", hash := "" } ∉ s.pageQueue ∧
                isUrlAllowed u.pathname ctx.disallowedPaths = true) := fun hc => hallow hc.2.2
            rw [if_neg hallow, if_neg hcond]
        · rw [if_neg hr]
          have hdis : ctx.disallowedPaths = [] := hrules (Bool.eq_false_iff.mpr hr)
          have hallow : isUrlAllowed u.pathname ctx.disallowedPaths = true := by
            rw [hdis]
            rfl
          have hcond : Url.href { absoluteUrl with search := "", hash := "" } ∉ s.visitedPages ∧
              Url.href { absoluteUrl with search := "", hash := "" } ∉ s.pageQueue ∧
              isUrlAllowed u.pathname ctx.disallowedPaths = true := ⟨hv, hq, hallow⟩
          rw [if_pos hcond]
  · intro horigin
    simp only [processAnchor]
    rw [if_neg (by rw [hskip]; exact Bool.false_ne_true), hres]
    simp only []
    rw [if_neg horigin]

end AgentClone

namespace AgentClone

/-- A world for the anchor witness: `/about` resolves against the root page
to `http://site.test/about`, which reparses to the same URL. -/
def env6 : Env :=
  { cwd := "/cwd",
    fetch := fun _ => .error "ETIMEDOUT",
    parseUrl := fun s => if s = "http://site.test/about" then some urlAbout else none,
    resolve := fun h b =>
      if h = "/about" ∧ b = "http://site.test/" then some urlAbout else none,
    decodeURIComponent := fun s => some s,
    load := fun _ => docEmpty,
    emptyDirOk := true,
    writeOk := fun _ => true }

/-- The rewrite context of the root page of `http://site.test`, robots
respected with no disallow rules. -/
def ctx6 : RewriteCtx := ⟨"http://site.test", true, [], "http://site.test/"⟩

/-- The crawl state seeded at the root. -/
def s6 : CrawlState := initState "http://site.test/"

/-- Witness for claim C6 at a concrete anchor: `/about` on the root page of
`http://site.test`. -/
theorem claim_C6_witness :
    (urlAbout.origin = ctx6.rootOrigin →
      processAnchor env6 ctx6 "/about" s6 =
        .ok ((if extname urlAbout.pathname = "" ∧ strEndsWith urlAbout.pathname "/" = false
              then urlAbout.pathname ++ "/" else urlAbout.pathname),
          if Url.href { urlAbout with search := "", hash := "" } ∉ s6.visitedPages ∧
             Url.href { urlAbout with search := "", hash := "" } ∉ s6.pageQueue ∧
             isUrlAllowed urlAbout.pathname ctx6.disallowedPaths = true
          then pushQueue s6 (Url.href { urlAbout with search := "", hash := "" })
          else s6)) ∧
    (urlAbout.origin ≠ ctx6.rootOrigin →
      processAnchor env6 ctx6 "/about" s6 = .ok ("/about", s6)) :=
  claim_C6_anchor_rewrite_enqueue env6 ctx6 "/about" s6 urlAbout urlAbout rfl rfl
    (fun h => nomatch h) rfl

end AgentClone

namespace AgentClone

/-! ## The crawl invariant (claims C3 and C4) -/

/-- The invariant maintained by every iteration of the crawl loop.  `dis` is
the active disallow list and `rootHref` the seeded root URL.  Besides the
claimed properties (budget bound, distinctness, queue/visited disjointness,
at-most-once enqueueing) it carries the robots bookkeeping needed to
preserve them: a URL ever enqueued is still queued, or visited, or was
dequeued by the robots skip (and is then provably disallowed, which bars
re-enqueueing); and when robots are respected every fetched URL is allowed
and every enqueued URL other than the root is allowed. -/
structure CrawlInv (env : Env) (cfg : CloneOptions) (dis : List String)
    (rootHref : String) (s : CrawlState) : Prop where
  vis_le : s.visitedPages.length ≤ cfg.maxPages
  vis_nodup : s.visitedPages.Nodup
  q_nodup : s.pageQueue.Nodup
  q_vis : ∀ h ∈ s.pageQueue, h ∉ s.visitedPages
  enq_nodup : s.enqueued.Nodup
  q_enq : ∀ h ∈ s.pageQueue, h ∈ s.enqueued
  enq_cases : ∀ h ∈ s.enqueued, h ∈ s.pageQueue ∨ h ∈ s.visitedPages ∨
    (cfg.respectRobots = true ∧
      ∃ u, env.parseUrl h = some u ∧ isUrlAllowed u.pathname dis = false)
  trace_allowed : cfg.respectRobots = true → ∀ h ∈ s.fetchTrace,
    ∃ u, env.parseUrl h = some u ∧ isUrlAllowed u.pathname dis = true
  enq_allowed : cfg.respectRobots = true → ∀ h ∈ s.enqueued, h = rootHref ∨
    ∃ u, env.parseUrl h = some u ∧ isUrlAllowed u.pathname dis = true

theorem CrawlInv.congr_fields {env cfg dis rootHref s s'}
    (inv : CrawlInv env cfg dis rootHref s)
    (h1 : s'.visitedPages = s.visitedPages) (h2 : s'.pageQueue = s.pageQueue)
    (h3 : s'.enqueued = s.enqueued) (h4 : s'.fetchTrace = s.fetchTrace) :
    CrawlInv env cfg dis rootHref s' := by
  constructor
  · rw [h1]; exact inv.vis_le
  · rw [h1]; exact inv.vis_nodup
  · rw [h2]; exact inv.q_nodup
  · rw [h2, h1]; exact inv.q_vis
  · rw [h3]; exact inv.enq_nodup
  · rw [h2, h3]; exact inv.q_enq
  · rw [h3, h2, h1]; exact inv.enq_cases
  · rw [h4]; exact inv.trace_allowed
  · rw [h3]; exact inv.enq_allowed

theorem CrawlInv.push {env cfg dis rootHref s} {A : String}
    (inv : CrawlInv env cfg dis rootHref s)
    (hv : A ∉ s.visitedPages) (hq : A ∉ s.pageQueue)
    (hrb : cfg.respectRobots = true →
      ∃ u, env.parseUrl A = some u ∧ isUrlAllowed u.pathname dis = true) :
    CrawlInv env cfg dis rootHref (pushQueue s A) := by
  have hAenq : A ∉ s.enqueued := by
    intro hA
    rcases inv.enq_cases A hA with h | h | ⟨hr, u, hu, hall⟩
    · exact hq h
    · exact hv h
    · obtain ⟨u', hu', hall'⟩ := hrb hr
      rw [hu] at hu'
      injection hu' with hu'
      rw [hu'] at hall
      rw [hall] at hall'
      exact Bool.false_ne_true hall'
  constructor
  · exact inv.vis_le
  · exact inv.vis_nodup
  · show (s.pageQueue ++ [A]).Nodup
    rw [List.nodup_append]
    exact ⟨inv.q_nodup, List.nodup_singleton A,
      fun a ha hA' => hq ((List.mem_singleton.mp hA') ▸ ha)⟩
  · intro h hm
    rcases List.mem_append.mp hm with h' | h'
    · exact inv.q_vis h h'
    · rw [List.mem_singleton.mp h']
      exact hv
  · show (s.enqueued ++ [A]).Nodup
    rw [List.nodup_append]
    exact ⟨inv.enq_nodup, List.nodup_singleton A,
      fun a ha hA' => hAenq ((List.mem_singleton.mp hA') ▸ ha)⟩
  · intro h hm
    rcases List.mem_append.mp hm with h' | h'
    · exact List.mem_append.mpr (Or.inl (inv.q_enq h h'))
    · exact List.mem_append.mpr (Or.inr h')
  · intro h hm
    rcases List.mem_append.mp hm with h' | h'
    · rcases inv.enq_cases h h' with h'' | h'' | h''
      · exact Or.inl (List.mem_append.mpr (Or.inl h''))
      · exact Or.inr (Or.inl h'')
      · exact Or.inr (Or.inr h'')
    · exact Or.inl (List.mem_append.mpr (Or.inr h'))
  · intro hr h hm
    exact inv.trace_allowed hr h hm
  · intro hr h hm
    rcases List.mem_append.mp hm with h' | h'
    · exact inv.enq_allowed hr h h'
    · rw [List.mem_singleton.mp h']
      exact Or.inr (hrb hr)

end AgentClone

namespace AgentClone

theorem processAnchor_inv {env cfg} {ctx : RewriteCtx} {dis rootHref href s}
    (hctx1 : ctx.respectRobots = cfg.respectRobots)
    (hctx2 : ctx.disallowedPaths = dis)
    (inv : CrawlInv env cfg dis rootHref s) :
    CrawlInv env cfg dis rootHref (exStateP (processAnchor env ctx href s)) := by
  simp only [processAnchor]
  split
  · exact inv
  · split
    · exact inv
    · rename_i absoluteUrl hres
      split
      · split
        · exact inv
        · rename_i hcv
          split
          · exact inv
          · rename_i hcq
            have hv : Url.href { absoluteUrl with search := "", hash := "" } ∉ s.visitedPages :=
              fun hm => hcv (contains_iff_mem.mpr hm)
            have hq : Url.href { absoluteUrl with search := "", hash := "" } ∉ s.pageQueue :=
              fun hm => hcq (contains_iff_mem.mpr hm)
            split
            · rename_i hr
              split
              · exact inv
              · rename_i u hu
                split
                · rename_i hallow
                  exact inv.push hv hq (fun _ => ⟨u, hu, hctx2 ▸ hallow⟩)
                · exact inv
            · rename_i hrF
              refine inv.push hv hq (fun hcfg => ?_)
              exact absurd (hctx1.trans hcfg) hrF
      · exact inv

theorem processAnchors_inv {env cfg} {ctx : RewriteCtx} {dis rootHref}
    (hctx1 : ctx.respectRobots = cfg.respectRobots)
    (hctx2 : ctx.disallowedPaths = dis) :
    ∀ {hrefs : List String} {s}, CrawlInv env cfg dis rootHref s →
      CrawlInv env cfg dis rootHref (exState (processAnchors env ctx hrefs s)) := by
  intro hrefs
  induction hrefs with
  | nil => intro s inv; exact inv
  | cons href rest ih =>
    intro s inv
    unfold processAnchors
    cases hstep : processAnchor env ctx href s with
    | error er =>
      dsimp only
      have h := @processAnchor_inv env cfg ctx dis rootHref href _ hctx1 hctx2 inv
      rw [hstep] at h
      exact h
    | ok ps =>
      obtain ⟨p, s1⟩ := ps
      dsimp only
      have h := @processAnchor_inv env cfg ctx dis rootHref href _ hctx1 hctx2 inv
      rw [hstep] at h
      exact ih h

theorem processDoc_inv {env cfg} {ctx : RewriteCtx} {dis rootHref doc s}
    (hctx1 : ctx.respectRobots = cfg.respectRobots)
    (hctx2 : ctx.disallowedPaths = dis)
    (inv : CrawlInv env cfg dis rootHref s) :
    CrawlInv env cfg dis rootHref (exState (processDoc env ctx doc s)) := by
  unfold processDoc
  cases h1 : processImgs env ctx doc.imgs s with
  | error er =>
    dsimp only
    have hf := @processImgs_frame env ctx doc.imgs s
    rw [h1] at hf
    exact inv.congr_fields hf.1 hf.2.1 hf.2.2.1 hf.2.2.2.2
  | ok s1 =>
    dsimp only
    have hf := @processImgs_frame env ctx doc.imgs s
    rw [h1] at hf
    have inv1 := inv.congr_fields hf.1 hf.2.1 hf.2.2.1 hf.2.2.2.2
    cases h2 : processAssetRefs env ctx doc.linkHrefs s1 with
    | error er =>
      dsimp only
      have hg := @processAssetRefs_frame env ctx doc.linkHrefs s1
      rw [h2] at hg
      exact inv1.congr_fields hg.1 hg.2.1 hg.2.2.1 hg.2.2.2.2
    | ok s2 =>
      dsimp only
      have hg := @processAssetRefs_frame env ctx doc.linkHrefs s1
      rw [h2] at hg
      have inv2 := inv1.congr_fields hg.1 hg.2.1 hg.2.2.1 hg.2.2.2.2
      cases h3 : processAssetRefs env ctx doc.scriptSrcs s2 with
      | error er =>
        dsimp only
        have hh := @processAssetRefs_frame env ctx doc.scriptSrcs s2
        rw [h3] at hh
        exact inv2.congr_fields hh.1 hh.2.1 hh.2.2.1 hh.2.2.2.2
      | ok s3 =>
        dsimp only
        have hh := @processAssetRefs_frame env ctx doc.scriptSrcs s2
        rw [h3] at hh
        have inv3 := inv2.congr_fields hh.1 hh.2.1 hh.2.2.1 hh.2.2.2.2
        exact processAnchors_inv hctx1 hctx2 inv3

end AgentClone

namespace AgentClone

theorem visitPage_inv {env cfg robots ro od rootHref} {u : String} {s0 : CrawlState}
    (hlen : s0.visitedPages.length < cfg.maxPages)
    (hnodup : s0.visitedPages.Nodup)
    (hu_nvis : u ∉ s0.visitedPages)
    (hq_nodup : s0.pageQueue.Nodup)
    (hq_vis : ∀ h ∈ s0.pageQueue, h ∉ s0.visitedPages)
    (hq_ne_u : ∀ h ∈ s0.pageQueue, h ≠ u)
    (henq_nodup : s0.enqueued.Nodup)
    (hq_enq : ∀ h ∈ s0.pageQueue, h ∈ s0.enqueued)
    (henq_cases : ∀ h ∈ s0.enqueued, h ∈ s0.pageQueue ∨ h ∈ s0.visitedPages ∨ h = u ∨
      (cfg.respectRobots = true ∧ ∃ uo, env.parseUrl h = some uo ∧
        isUrlAllowed uo.pathname robots.disallowedPaths = false))
    (htrace : cfg.respectRobots = true → ∀ h ∈ s0.fetchTrace,
      ∃ uo, env.parseUrl h = some uo ∧ isUrlAllowed uo.pathname robots.disallowedPaths = true)
    (henq_allowed : cfg.respectRobots = true → ∀ h ∈ s0.enqueued, h = rootHref ∨
      ∃ uo, env.parseUrl h = some uo ∧ isUrlAllowed uo.pathname robots.disallowedPaths = true)
    (hu_allowed : cfg.respectRobots = true →
      ∃ uo, env.parseUrl u = some uo ∧ isUrlAllowed uo.pathname robots.disallowedPaths = true) :
    CrawlInv env cfg robots.disallowedPaths rootHref
      (stepState (visitPage env cfg robots ro od u s0)) := by
  have inv1 : CrawlInv env cfg robots.disallowedPaths rootHref
      { s0 with visitedPages := s0.visitedPages ++ [u],
                fetchTrace := s0.fetchTrace ++ [u] } := by
    constructor
    · show (s0.visitedPages ++ [u]).length ≤ cfg.maxPages
      rw [List.length_append]
      simp only [List.length_singleton]
      omega
    · show (s0.visitedPages ++ [u]).Nodup
      rw [List.nodup_append]
      exact ⟨hnodup, List.nodup_singleton u,
        fun a ha hA' => hu_nvis ((List.mem_singleton.mp hA') ▸ ha)⟩
    · exact hq_nodup
    · intro h hm hmem
      rcases List.mem_append.mp hmem with h' | h'
      · exact hq_vis h hm h'
      · exact hq_ne_u h hm (List.mem_singleton.mp h')
    · exact henq_nodup
    · exact hq_enq
    · intro h hm
      rcases henq_cases h hm with h' | h' | h' | h'
      · exact Or.inl h'
      · exact Or.inr (Or.inl (List.mem_append.mpr (Or.inl h')))
      · exact Or.inr (Or.inl (List.mem_append.mpr (Or.inr (List.mem_singleton.mpr h'))))
      · exact Or.inr (Or.inr h')
    · intro hr h hm
      rcases List.mem_append.mp hm with h' | h'
      · exact htrace hr h h'
      · rw [List.mem_singleton.mp h']
        exact hu_allowed hr
    · exact henq_allowed
  simp only [visitPage]
  split
  · exact inv1
  · split
    · exact inv1
    · split
      · exact inv1
      · rename_i html hbody
        cases hd : processDoc env
            ⟨ro, cfg.respectRobots, robots.disallowedPaths, u⟩ (env.load html)
            { s0 with visitedPages := s0.visitedPages ++ [u],
                      fetchTrace := s0.fetchTrace ++ [u] } with
        | error er =>
          obtain ⟨e, s2⟩ := er
          dsimp only
          have h := @processDoc_inv env cfg
            ⟨ro, cfg.respectRobots, robots.disallowedPaths, u⟩
            robots.disallowedPaths rootHref
            (env.load html) _ rfl rfl inv1
          rw [hd] at h
          exact h
        | ok s2 =>
          dsimp only
          have h := @processDoc_inv env cfg
            ⟨ro, cfg.respectRobots, robots.disallowedPaths, u⟩
            robots.disallowedPaths rootHref
            (env.load html) _ rfl rfl inv1
          rw [hd] at h
          split
          · exact h
          · rename_i uo hup
            split
            · exact h.congr_fields rfl rfl rfl rfl
            · exact h

theorem dequeue_inv {env cfg dis rootHref s} {u : String} {rest : List String}
    (inv : CrawlInv env cfg dis rootHref s)
    (hq : s.pageQueue = u :: rest)
    (hcase : u ∈ s.visitedPages ∨ (cfg.respectRobots = true ∧
      ∃ uo, env.parseUrl u = some uo ∧ isUrlAllowed uo.pathname dis = false)) :
    CrawlInv env cfg dis rootHref { s with pageQueue := rest } := by
  constructor
  · exact inv.vis_le
  · exact inv.vis_nodup
  · have := inv.q_nodup
    rw [hq] at this
    exact this.of_cons
  · intro h hm
    exact inv.q_vis h (by rw [hq]; exact List.mem_cons_of_mem u hm)
  · exact inv.enq_nodup
  · intro h hm
    exact inv.q_enq h (by rw [hq]; exact List.mem_cons_of_mem u hm)
  · intro h hm
    rcases inv.enq_cases h hm with h' | h' | h'
    · rw [hq] at h'
      rcases List.mem_cons.mp h' with rfl | h''
      · rcases hcase with hvis | hdis
        · exact Or.inr (Or.inl hvis)
        · exact Or.inr (Or.inr hdis)
      · exact Or.inl h''
    · exact Or.inr (Or.inl h')
    · exact Or.inr (Or.inr h')
  · exact inv.trace_allowed
  · exact inv.enq_allowed

theorem crawlStep_inv {env cfg robots ro od rootHref s s'}
    (inv : CrawlInv env cfg robots.disallowedPaths rootHref s)
    (hout : crawlStep env cfg robots ro od s = .next s' ∨
      crawlStep env cfg robots ro od s = .halt s') :
    CrawlInv env cfg robots.disallowedPaths rootHref s' := by
  simp only [crawlStep] at hout
  split at hout
  · rcases hout with h | h
    · injection h
    · injection h with h
      subst h
      exact inv
  · rename_i currentUrl rest hq
    split at hout
    · rcases hout with h | h
      · injection h
      · injection h with h
        subst h
        exact inv
    · rename_i hbudget
      split at hout
      · rename_i hcv
        rcases hout with h | h
        · injection h with h
          subst h
          exact dequeue_inv inv hq (Or.inl (contains_iff_mem.mp hcv))
        · injection h
      · rename_i hcv
        have hu_nvis : currentUrl ∉ s.visitedPages :=
          fun hm => hcv (contains_iff_mem.mpr hm)
        have hrestq : rest.Nodup ∧ currentUrl ∉ rest := by
          have := inv.q_nodup
          rw [hq] at this
          exact ⟨this.of_cons, (List.nodup_cons.mp this).1⟩
        have hvisit :
            ∀ (hu_allowed : cfg.respectRobots = true →
              ∃ uo, env.parseUrl currentUrl = some uo ∧
                isUrlAllowed uo.pathname robots.disallowedPaths = true),
            CrawlInv env cfg robots.disallowedPaths rootHref
              (stepState (visitPage env cfg robots ro od currentUrl
                { s with pageQueue := rest })) := by
          intro hu_allowed
          refine visitPage_inv (by show s.visitedPages.length < cfg.maxPages; omega)
            inv.vis_nodup hu_nvis hrestq.1 ?_ ?_
            inv.enq_nodup ?_ ?_ inv.trace_allowed inv.enq_allowed hu_allowed
          · intro h hm
            exact inv.q_vis h (by rw [hq]; exact List.mem_cons_of_mem currentUrl hm)
          · intro h hm heq
            rw [heq] at hm
            exact hrestq.2 hm
          · intro h hm
            exact inv.q_enq h (by rw [hq]; exact List.mem_cons_of_mem currentUrl hm)
          · intro h hm
            rcases inv.enq_cases h hm with h' | h' | h'
            · rw [hq] at h'
              rcases List.mem_cons.mp h' with rfl | h''
              · exact Or.inr (Or.inr (Or.inl rfl))
              · exact Or.inl h''
            · exact Or.inr (Or.inl h')
            · exact Or.inr (Or.inr (Or.inr h'))
        have hvstep : ∀ (hu_allowed : cfg.respectRobots = true →
              ∃ uo, env.parseUrl currentUrl = some uo ∧
                isUrlAllowed uo.pathname robots.disallowedPaths = true),
            (visitPage env cfg robots ro od currentUrl { s with pageQueue := rest } = .next s' ∨
              visitPage env cfg robots ro od currentUrl { s with pageQueue := rest } = .halt s') →
            CrawlInv env cfg robots.disallowedPaths rootHref s' := by
          intro hu_allowed hv
          have hs' : stepState (visitPage env cfg robots ro od currentUrl
              { s with pageQueue := rest }) = s' := by
            rcases hv with h | h <;> rw [h] <;> rfl
          rw [hs'] at hvisit
          exact hvisit hu_allowed
        split at hout
        · rename_i hr
          split at hout
          · rcases hout with h | h <;> injection h
          · rename_i uo hup
            split at hout
            · rename_i hdis
              rcases hout with h | h
              · injection h with h
                subst h
                refine dequeue_inv inv hq (Or.inr ⟨hr, uo, hup, ?_⟩)
                revert hdis
                cases isUrlAllowed uo.pathname robots.disallowedPaths <;> simp
              · injection h
            · rename_i hall
              refine hvstep (fun _ => ⟨uo, hup, ?_⟩) hout
              revert hall
              cases isUrlAllowed uo.pathname robots.disallowedPaths <;> simp
        · rename_i hrF
          exact hvstep (fun hcfg => absurd hcfg hrF) hout

theorem initState_inv (env : Env) (cfg : CloneOptions) (dis : List String)
    (rootHref : String) : CrawlInv env cfg dis rootHref (initState rootHref) := by
  constructor
  · show ([] : List String).length ≤ cfg.maxPages
    simp
  · exact List.nodup_nil
  · exact List.nodup_singleton rootHref
  · intro h hm
    simp [initState]
  · exact List.nodup_singleton rootHref
  · intro h hm
    exact hm
  · intro h hm
    exact Or.inl hm
  · intro _ h hm
    simp [initState] at hm
  · intro _ h hm
    exact Or.inl (List.mem_singleton.mp hm)

theorem Reaches_inv {env cfg dis rootHref} {f : CrawlState → StepOut}
    (hf : ∀ x x', f x = .next x' → CrawlInv env cfg dis rootHref x →
      CrawlInv env cfg dis rootHref x')
    {s t} (hr : Reaches f s t) (hs : CrawlInv env cfg dis rootHref s) :
    CrawlInv env cfg dis rootHref t := by
  induction hr with
  | refl => exact hs
  | step hr hnext ih => exact hf _ _ hnext ih

theorem reachable_inv {env cfg robots ro od rootHref t}
    (hr : Reaches (crawlStep env cfg robots ro od) (initState rootHref) t) :
    CrawlInv env cfg robots.disallowedPaths rootHref t :=
  Reaches_inv (fun _ _ hnext inv => crawlStep_inv inv (Or.inl hnext)) hr
    (initState_inv env cfg robots.disallowedPaths rootHref)

/-- Claim C3: throughout every crawl — at every state reachable from the
initial state by crawl-loop iterations — the visited set holds at most
`maxPages` URLs and they are pairwise distinct, no URL is simultaneously in
the visited set and the pending queue, and the `enqueued` trace (every URL
ever pushed onto the queue, the seed included) has no duplicates: every URL
enters the queue at most once per crawl. -/
theorem claim_C3_queue_visited_invariants :
    ∀ (env : Env) (cfg : CloneOptions) (robots : RobotsRules)
      (rootOrigin outputDir rootHref : String) (t : CrawlState),
      Reaches (crawlStep env cfg robots rootOrigin outputDir) (initState rootHref) t →
      t.visitedPages.length ≤ cfg.maxPages ∧ t.visitedPages.Nodup ∧
        (∀ h ∈ t.pageQueue, h ∉ t.visitedPages) ∧ t.enqueued.Nodup := by
  intro env cfg robots ro od rootHref t hr
  have inv := reachable_inv hr
  exact ⟨inv.vis_le, inv.vis_nodup, inv.q_vis, inv.enq_nodup⟩

/-- The state after one iteration of a crawl of `http://site.test/` in the
network-down world with robots ignored: the root is visited and traced, the
queue is drained. -/
def s3w : CrawlState :=
  ⟨["http://site.test/"], [], [], ["http://site.test/"], [], ["http://site.test/"]⟩

/-- Witness for claim C3 after one concrete iteration of a crawl of
`http://site.test/` in a network-down world. -/
theorem claim_C3_witness :
    s3w.visitedPages.length ≤ ({ respectRobots := false } : CloneOptions).maxPages ∧
      s3w.visitedPages.Nodup ∧
      (∀ h ∈ s3w.pageQueue, h ∉ s3w.visitedPages) ∧ s3w.enqueued.Nodup :=
  claim_C3_queue_visited_invariants envNetDown { respectRobots := false } ⟨[], 0⟩
    "http://site.test" "/cwd/cloned-websites" "http://site.test/" s3w
    (Reaches.step (Reaches.refl _) (by rfl))

theorem visitPage_trace {env cfg robots ro od} {u : String} {s0 : CrawlState} :
    u ∈ (stepState (visitPage env cfg robots ro od u s0)).fetchTrace ∧
      u ∈ (stepState (visitPage env cfg robots ro od u s0)).visitedPages := by
  have hmemt : u ∈ s0.fetchTrace ++ [u] :=
    List.mem_append.mpr (Or.inr (List.mem_singleton.mpr rfl))
  have hmemv : u ∈ s0.visitedPages ++ [u] :=
    List.mem_append.mpr (Or.inr (List.mem_singleton.mpr rfl))
  simp only [visitPage]
  split
  · exact ⟨hmemt, hmemv⟩
  · split
    · exact ⟨hmemt, hmemv⟩
    · split
      · exact ⟨hmemt, hmemv⟩
      · rename_i html hbody
        cases hd : processDoc env
            ⟨ro, cfg.respectRobots, robots.disallowedPaths, u⟩ (env.load html)
            { s0 with visitedPages := s0.visitedPages ++ [u],
                      fetchTrace := s0.fetchTrace ++ [u] } with
        | error er =>
          obtain ⟨e, s2⟩ := er
          dsimp only
          have hf := @processDoc_frameAll env
            ⟨ro, cfg.respectRobots, robots.disallowedPaths, u⟩ (env.load html)
            { s0 with visitedPages := s0.visitedPages ++ [u],
                      fetchTrace := s0.fetchTrace ++ [u] }
          rw [hd] at hf
          exact ⟨hf.2.2 ▸ hmemt, hf.1 ▸ hmemv⟩
        | ok s2 =>
          dsimp only
          have hf := @processDoc_frameAll env
            ⟨ro, cfg.respectRobots, robots.disallowedPaths, u⟩ (env.load html)
            { s0 with visitedPages := s0.visitedPages ++ [u],
                      fetchTrace := s0.fetchTrace ++ [u] }
          rw [hd] at hf
          split
          · exact ⟨hf.2.2 ▸ hmemt, hf.1 ▸ hmemv⟩
          · split
            · exact ⟨hf.2.2 ▸ hmemt, hf.1 ▸ hmemv⟩
            · exact ⟨hf.2.2 ▸ hmemt, hf.1 ▸ hmemv⟩

/-- Claim C4: when `respectRobots` is true, every URL for which a page fetch
was ever issued (at any reachable crawl state) parses to a robots-allowed
path, and every URL ever enqueued — the seeded root aside — is
robots-allowed, so a disallowed URL is never fetched as a page and never
enqueued from a discovered link.  When `respectRobots` is false, whatever
the disallow list, a dequeued unvisited URL is fetched (subject only to the
page budget): it enters the fetch trace of the next state. -/
theorem claim_C4_robots_gating :
    (∀ (env : Env) (cfg : CloneOptions) (robots : RobotsRules)
       (rootOrigin outputDir rootHref : String) (t : CrawlState),
       cfg.respectRobots = true →
       Reaches (crawlStep env cfg robots rootOrigin outputDir) (initState rootHref) t →
       (∀ h ∈ t.fetchTrace, ∃ u, env.parseUrl h = some u ∧
          isUrlAllowed u.pathname robots.disallowedPaths = true) ∧
       (∀ h ∈ t.enqueued, h = rootHref ∨ ∃ u, env.parseUrl h = some u ∧
          isUrlAllowed u.pathname robots.disallowedPaths = true)) ∧
    (∀ (env : Env) (cfg : CloneOptions) (robots : RobotsRules)
       (rootOrigin outputDir currentUrl : String) (rest : List String) (s : CrawlState),
       cfg.respectRobots = false →
       s.pageQueue = currentUrl :: rest →
       currentUrl ∉ s.visitedPages →
       s.visitedPages.length < cfg.maxPages →
       currentUrl ∈
         (stepState (crawlStep env cfg robots rootOrigin outputDir s)).fetchTrace) := by
  constructor
  · intro env cfg robots ro od rootHref t hr hreach
    have inv := reachable_inv hreach
    exact ⟨inv.trace_allowed hr, inv.enq_allowed hr⟩
  · intro env cfg robots ro od currentUrl rest s hrb hq hnvis hlen
    simp only [crawlStep]
    rw [hq]
    dsimp only
    rw [if_neg (by omega : ¬cfg.maxPages ≤ s.visitedPages.length)]
    rw [if_neg (fun hc => hnvis (contains_iff_mem.mp hc))]
    rw [if_neg (by rw [hrb]; exact Bool.false_ne_true)]
    exact visitPage_trace.1

/-- Witness for claim C4: with `respectRobots := false` and a disallow list
that bars everything (`["/"]`), the root URL is still fetched. -/
theorem claim_C4_witness :
    "http://site.test/" ∈
      (stepState (crawlStep envNetDown { respectRobots := false } ⟨["/"], 0⟩
        "http://site.test" "/cwd/cloned-websites"
        (initState "http://site.test/"))).fetchTrace :=
  claim_C4_robots_gating.2 envNetDown { respectRobots := false } ⟨["/"], 0⟩
    "http://site.test" "/cwd/cloned-websites" "http://site.test/" []
    (initState "http://site.test/") rfl rfl (by simp [initState]) (by decide)

/-- Unfolding of `cloneWebsite` past a successful target parse and output
directory preparation. -/
theorem cloneWebsite_eq {env : Env} {targetUrl : String} {options : CloneOptions} {root : Url}
    (hparse : env.parseUrl targetUrl = some root) (hdir : env.emptyDirOk = true) :
    cloneWebsite env targetUrl options =
      (match crawlLoop env options
          (if options.respectRobots then parseRobots env root else ⟨[], 0⟩)
          root.origin (pathJoin env.cwd options.outDir) (initState root.href) with
       | .error e => .error e
       | .ok fin =>
         .ok { result := { success := true,
                           message := "✅ Website cloned successfully",
                           outputPath := pathJoin env.cwd options.outDir,
                           statistics := { pagesCloned := fin.visitedPages.length,
                                           assetsDownloaded := fin.assetSet.length,
                                           maxPagesReached :=
                                             decide (options.maxPages ≤ fin.visitedPages.length),
                                           robotsRespected := options.respectRobots } },
               finalState := fin,
               writtenAssets := fin.assetSet.filterMap
                 (downloadAsset env (pathJoin env.cwd options.outDir) root.origin
                   options.mirrorExternalAssets) }) := by
  simp only [cloneWebsite, hparse, hdir, Bool.not_true, Bool.false_eq_true, if_false]

/-- The network-down world that can still parse the root URL. -/
def envRootOnly : Env :=
  { envNetDown with
    parseUrl := fun s => if s = "http://site.test/" then some urlRoot else none }

/-- Claim C10: the returned `statistics.pagesCloned` equals the size of the
final visited set; a dequeued robots-allowed (or robots-ignored) URL enters
the visited set whatever the fetch outcome, consuming a budget slot; and a
concrete run whose only fetch fails returns `pagesCloned = 1` with no page
file written — `pagesCloned` can exceed the number of page files. -/
theorem claim_C10_pagesCloned_accounting :
    (∀ (env : Env) (targetUrl : String) (options : CloneOptions) (run : CloneRun),
       cloneWebsite env targetUrl options = .ok run →
       run.result.statistics.pagesCloned = run.finalState.visitedPages.length) ∧
    (∀ (env : Env) (cfg : CloneOptions) (robots : RobotsRules)
       (rootOrigin outputDir currentUrl : String) (rest : List String) (s : CrawlState),
       s.pageQueue = currentUrl :: rest →
       currentUrl ∉ s.visitedPages →
       s.visitedPages.length < cfg.maxPages →
       (cfg.respectRobots = true → ∃ u, env.parseUrl currentUrl = some u ∧
          isUrlAllowed u.pathname robots.disallowedPaths = true) →
       currentUrl ∈
         (stepState (crawlStep env cfg robots rootOrigin outputDir s)).visitedPages) ∧
    (∃ run, cloneWebsite envRootOnly "http://site.test/" { respectRobots := false } = .ok run ∧
       run.result.statistics.pagesCloned = 1 ∧ run.finalState.writtenPages = []) := by
  refine ⟨?_, ?_, ?_⟩
  · intro env targetUrl options run h
    unfold cloneWebsite at h
    split at h
    · injection h
    · split at h
      · split at h
        · injection h
        · dsimp only at h
          split at h
          · injection h
          · injection h with h
            subst h
            rfl
      · split at h
        · injection h
        · dsimp only at h
          split at h
          · injection h
          · injection h with h
            subst h
            rfl
  · intro env cfg robots ro od currentUrl rest s hq hnvis hlen hrob
    simp only [crawlStep]
    rw [hq]
    dsimp only
    rw [if_neg (by omega : ¬cfg.maxPages ≤ s.visitedPages.length)]
    rw [if_neg (fun hc => hnvis (contains_iff_mem.mp hc))]
    by_cases hr : cfg.respectRobots = true
    · rw [if_pos hr]
      obtain ⟨u, hu, hall⟩ := hrob hr
      rw [hu]
      dsimp only
      rw [if_neg (by rw [hall]; simp)]
      exact visitPage_trace.2
    · rw [if_neg hr]
      exact visitPage_trace.2
  · have h1 : crawlStep envRootOnly { respectRobots := false } ⟨[], 0⟩
        urlRoot.origin (pathJoin envRootOnly.cwd ({ respectRobots := false } : CloneOptions).outDir)
        (initState urlRoot.href) = .next s3w := rfl
    have h2 : crawlStep envRootOnly { respectRobots := false } ⟨[], 0⟩
        urlRoot.origin (pathJoin envRootOnly.cwd ({ respectRobots := false } : CloneOptions).outDir)
        s3w = .halt s3w := rfl
    have hloop : crawlLoop envRootOnly { respectRobots := false } ⟨[], 0⟩
        urlRoot.origin (pathJoin envRootOnly.cwd ({ respectRobots := false } : CloneOptions).outDir)
        (initState urlRoot.href) = .ok s3w := by
      rw [crawlLoop_eq, h1]
      dsimp only
      rw [crawlLoop_eq, h2]
    refine ⟨{ result := { success := true, message := "✅ Website cloned successfully",
                          outputPath := pathJoin envRootOnly.cwd "cloned-websites",
                          statistics := { pagesCloned := 1, assetsDownloaded := 0,
                                          maxPagesReached := false,
                                          robotsRespected := false } },
              finalState := s3w, writtenAssets := [] }, ?_, rfl, rfl⟩
    rw [@cloneWebsite_eq _ _ _ urlRoot rfl rfl]
    simp only [if_neg (by simp : ¬(({ respectRobots := false } : CloneOptions).respectRobots = true))]
    rw [hloop]
    rfl

/-! ## Claim C1: per-asset failure isolation (corrected) -/

/-- A world whose root page is HTML with one `<img>` pointing at
`http://cdn.test/x.png`, whose fetch returns HTTP 404. -/
def envAsset404 : Env :=
  { cwd := "/cwd",
    fetch := fun u =>
      if u = "http://site.test/" then .ok (respHtml "page")
      else if u = "http://cdn.test/x.png" then .ok resp404
      else .error "ENOTFOUND",
    parseUrl := fun s =>
      if s = "http://site.test/" then some urlRoot
      else if s = "http://cdn.test/x.png" then some urlCdnPng
      else none,
    resolve := fun h _ => if h = "http://cdn.test/x.png" then some urlCdnPng else none,
    decodeURIComponent := fun s => some s,
    load := fun b => if b = "page" then docOneImg else docEmpty,
    emptyDirOk := true,
    writeOk := fun _ => true }

/-- The crawl state after the single page visit in `envAsset404`. -/
def s1c : CrawlState :=
  ⟨["http://site.test/"], [], ["http://cdn.test/x.png"], ["http://site.test/"],
   ["/cwd/cloned-websites/index.html"], ["http://site.test/"]⟩

/-- The completed run of `envAsset404`: the one discovered asset fails with
404, so nothing is written to `assets/`, yet `assetsDownloaded` is `1`. -/
def runC1 : CloneRun :=
  { result := { success := true, message := "✅ Website cloned successfully",
                outputPath := "/cwd/cloned-websites",
                statistics := { pagesCloned := 1, assetsDownloaded := 1,
                                maxPagesReached := false, robotsRespected := false } },
    finalState := s1c, writtenAssets := [] }

theorem cloneWebsite_envAsset404 :
    cloneWebsite envAsset404 "http://site.test/" { respectRobots := false } = .ok runC1 := by
  have h1 : crawlStep envAsset404 { respectRobots := false } ⟨[], 0⟩
      urlRoot.origin (pathJoin envAsset404.cwd ({ respectRobots := false } : CloneOptions).outDir)
      (initState urlRoot.href) = .next s1c := rfl
  have h2 : crawlStep envAsset404 { respectRobots := false } ⟨[], 0⟩
      urlRoot.origin (pathJoin envAsset404.cwd ({ respectRobots := false } : CloneOptions).outDir)
      s1c = .halt s1c := rfl
  have hloop : crawlLoop envAsset404 { respectRobots := false } ⟨[], 0⟩
      urlRoot.origin (pathJoin envAsset404.cwd ({ respectRobots := false } : CloneOptions).outDir)
      (initState urlRoot.href) = .ok s1c := by
    rw [crawlLoop_eq, h1]
    dsimp only
    rw [crawlLoop_eq, h2]
  rw [@cloneWebsite_eq _ _ _ urlRoot rfl rfl]
  simp only [if_neg (by simp : ¬(({ respectRobots := false } : CloneOptions).respectRobots = true))]
  rw [hloop]
  rfl

/-- Counterexample to claim C1 as stated: in `envAsset404` the clone
resolves successfully and the only discovered asset's fetch returns HTTP
404, so zero assets are successfully downloaded — yet
`statistics.assetsDownloaded` is `1`, the size of the discovered set, not
the number of successful downloads. -/
theorem claim_C1_counterexample :
    cloneWebsite envAsset404 "http://site.test/" { respectRobots := false } = .ok runC1 ∧
      envAsset404.fetch "http://cdn.test/x.png" = .ok resp404 ∧
      resp404.ok = false ∧
      runC1.result.statistics.assetsDownloaded = 1 ∧
      runC1.writtenAssets = [] :=
  ⟨cloneWebsite_envAsset404, rfl, rfl, rfl, rfl⟩

theorem cloneWebsite_ok_spec {env : Env} {targetUrl : String} {options : CloneOptions}
    {run : CloneRun} {root : Url}
    (hparse : env.parseUrl targetUrl = some root)
    (h : cloneWebsite env targetUrl options = .ok run) :
    run.result.success = true ∧
    run.result.statistics.assetsDownloaded = run.finalState.assetSet.length ∧
    run.writtenAssets = run.finalState.assetSet.filterMap
      (downloadAsset env (pathJoin env.cwd options.outDir) root.origin
        options.mirrorExternalAssets) := by
  unfold cloneWebsite at h
  rw [hparse] at h
  dsimp only at h
  split at h
  · injection h
  · split at h
    · injection h
    · injection h with h
      subst h
      exact ⟨rfl, rfl, rfl⟩

theorem downloadAsset_none_of_bad_status {env : Env} {od ro a : String} {mir : Bool}
    {ua : Url} {response : Response}
    (hua : env.parseUrl a = some ua) (hfetch : env.fetch a = .ok response)
    (hok : response.ok = false) :
    downloadAsset env od ro mir a = none := by
  unfold downloadAsset
  rw [hua]
  dsimp only
  split
  · rfl
  · split
    · rfl
    · rw [hfetch]
      dsimp only
      rw [if_pos (by rw [hok]; rfl)]

theorem downloadAsset_some {env : Env} {od ro b p : String} {mir : Bool}
    (h : downloadAsset env od ro mir b = some p) :
    ∃ ub, env.parseUrl b = some ub ∧ p = pathJoin od (localizeAssetPath ub) := by
  unfold downloadAsset at h
  split at h
  · injection h
  · rename_i ub hub
    repeat' split at h
    all_goals
      first
      | (injection h with h; exact ⟨ub, hub, h.symm⟩)
      | injection h
      | (dsimp only at h
         split at h
         · injection h with h
           exact ⟨ub, hub, h.symm⟩
         · injection h)

theorem pathJoin_right_inj {a x y : String} (h : pathJoin a x = pathJoin a y) : x = y := by
  unfold pathJoin at h
  have hd := congrArg String.data h
  simp only [String.data_append] at hd
  have hd' := List.append_cancel_left hd
  cases x; cases y
  exact congrArg String.mk hd'

/-- Claim C1 (amended): `assetsDownloaded` counts the *discovered* asset
set, not successful downloads; what the catch around each asset download
actually guarantees is isolation: a failed asset (here: HTTP error status)
contributes no file under `assets/`, every successfully downloaded asset
still lands in the written list, and the run still resolves with
`success: true`. -/
theorem claim_C1_asset_failure_isolated :
    ∀ (env : Env) (targetUrl : String) (options : CloneOptions) (run : CloneRun)
      (root ua : Url) (a : String) (response : Response),
      cloneWebsite env targetUrl options = .ok run →
      env.parseUrl targetUrl = some root →
      a ∈ run.finalState.assetSet →
      env.parseUrl a = some ua →
      env.fetch a = .ok response →
      response.ok = false →
      (∀ b, b ∈ run.finalState.assetSet → b ≠ a → ∀ ub, env.parseUrl b = some ub →
        localizeAssetPath ub ≠ localizeAssetPath ua) →
      downloadAsset env (pathJoin env.cwd options.outDir) root.origin
          options.mirrorExternalAssets a = none ∧
      pathJoin (pathJoin env.cwd options.outDir) (localizeAssetPath ua) ∉ run.writtenAssets ∧
      (∀ b ∈ run.finalState.assetSet, ∀ p,
        downloadAsset env (pathJoin env.cwd options.outDir) root.origin
          options.mirrorExternalAssets b = some p → p ∈ run.writtenAssets) ∧
      run.result.success = true ∧
      run.result.statistics.assetsDownloaded = run.finalState.assetSet.length := by
  intro env targetUrl options run root ua a response hclone hroot hmem hua hfetch hok hnocol
  obtain ⟨hsucc, hcnt, hw⟩ := cloneWebsite_ok_spec hroot hclone
  have hnone := @downloadAsset_none_of_bad_status env (pathJoin env.cwd options.outDir)
    root.origin a options.mirrorExternalAssets ua response hua hfetch hok
  refine ⟨hnone, ?_, ?_, hsucc, hcnt⟩
  · rw [hw]
    intro hmem'
    rw [List.mem_filterMap] at hmem'
    obtain ⟨b, hb, hdb⟩ := hmem'
    obtain ⟨ub, hub, hp⟩ := downloadAsset_some hdb
    by_cases hba : b = a
    · subst hba
      rw [hnone] at hdb
      exact Option.noConfusion hdb
    · exact hnocol b hb hba ub hub (pathJoin_right_inj hp).symm
  · intro b hb p hdp
    rw [hw]
    exact List.mem_filterMap.mpr ⟨b, hb, hdp⟩

theorem claim_C1_witness :
    downloadAsset envAsset404
        (pathJoin envAsset404.cwd ({ respectRobots := false } : CloneOptions).outDir)
        urlRoot.origin ({ respectRobots := false } : CloneOptions).mirrorExternalAssets
        "http://cdn.test/x.png" = none ∧
    pathJoin (pathJoin envAsset404.cwd ({ respectRobots := false } : CloneOptions).outDir)
        (localizeAssetPath urlCdnPng) ∉ runC1.writtenAssets ∧
    (∀ b ∈ runC1.finalState.assetSet, ∀ p,
      downloadAsset envAsset404
        (pathJoin envAsset404.cwd ({ respectRobots := false } : CloneOptions).outDir)
        urlRoot.origin ({ respectRobots := false } : CloneOptions).mirrorExternalAssets
        b = some p → p ∈ runC1.writtenAssets) ∧
    runC1.result.success = true ∧
    runC1.result.statistics.assetsDownloaded = runC1.finalState.assetSet.length :=
  claim_C1_asset_failure_isolated envAsset404 "http://site.test/" { respectRobots := false }
    runC1 urlRoot urlCdnPng "http://cdn.test/x.png" resp404
    cloneWebsite_envAsset404 rfl (by simp [runC1, s1c]) rfl rfl rfl
    (fun b hb hne ub hub => absurd (by simpa [runC1, s1c] using hb) hne)

/-! ## Claim C2: the propagation policy (corrected) -/

theorem processImgAttr_no_err {env : Env} {ctx : RewriteCtx}
    (hres : ∀ a b, env.resolve a b ≠ none) :
    ∀ value s e, processImgAttr env ctx value s ≠ .error e := by
  intro value s e h
  simp only [processImgAttr] at h
  repeat' split at h
  all_goals
    first
    | (exact absurd (by assumption) (hres _ _))
    | injection h

theorem srcsetFixedUrl_no_err {env : Env}
    (hdec : ∀ u, env.decodeURIComponent u ≠ none) :
    ∀ url s e, srcsetFixedUrl env url s ≠ .error e := by
  intro url s e h
  simp only [srcsetFixedUrl] at h
  repeat' split at h
  all_goals
    first
    | (exact absurd (by assumption) (hdec _))
    | injection h

theorem processSrcsetEntry_no_err {env : Env} {ctx : RewriteCtx}
    (hres : ∀ a b, env.resolve a b ≠ none)
    (hdec : ∀ u, env.decodeURIComponent u ≠ none) :
    ∀ entry s e, processSrcsetEntry env ctx entry s ≠ .error e := by
  intro entry s e h
  simp only [processSrcsetEntry] at h
  repeat' split at h
  all_goals
    first
    | (exact absurd (by assumption) (hres _ _))
    | (exact srcsetFixedUrl_no_err hdec _ _ _ (by assumption))
    | injection h

theorem processSrcsetEntries_no_err {env : Env} {ctx : RewriteCtx}
    (hres : ∀ a b, env.resolve a b ≠ none)
    (hdec : ∀ u, env.decodeURIComponent u ≠ none) :
    ∀ l s e, processSrcsetEntries env ctx l s ≠ .error e := by
  intro l
  induction l with
  | nil => intro s e h; exact Except.noConfusion h
  | cons a rest ih =>
    intro s e h
    simp only [processSrcsetEntries] at h
    split at h
    · exact processSrcsetEntry_no_err hres hdec _ _ _ (by assumption)
    · exact ih _ _ h

theorem processImg_no_err {env : Env} {ctx : RewriteCtx}
    (hres : ∀ a b, env.resolve a b ≠ none)
    (hdec : ∀ u, env.decodeURIComponent u ≠ none) :
    ∀ img s e, processImg env ctx img s ≠ .error e := by
  intro img s e h
  simp only [processImg] at h
  repeat' split at h
  all_goals
    first
    | (exact processImgAttr_no_err hres _ _ _ (by assumption))
    | (exact processSrcsetEntries_no_err hres hdec _ _ _ h)
    | injection h

theorem processImgs_no_err {env : Env} {ctx : RewriteCtx}
    (hres : ∀ a b, env.resolve a b ≠ none)
    (hdec : ∀ u, env.decodeURIComponent u ≠ none) :
    ∀ l s e, processImgs env ctx l s ≠ .error e := by
  intro l
  induction l with
  | nil => intro s e h; exact Except.noConfusion h
  | cons img rest ih =>
    intro s e h
    simp only [processImgs] at h
    split at h
    · exact processImg_no_err hres hdec _ _ _ (by assumption)
    · exact ih _ _ h

theorem processAssetRef_no_err {env : Env} {ctx : RewriteCtx}
    (hres : ∀ a b, env.resolve a b ≠ none) :
    ∀ v s e, processAssetRef env ctx v s ≠ .error e := by
  intro v s e h
  simp only [processAssetRef] at h
  repeat' split at h
  all_goals
    first
    | (exact absurd (by assumption) (hres _ _))
    | injection h

theorem processAssetRefs_no_err {env : Env} {ctx : RewriteCtx}
    (hres : ∀ a b, env.resolve a b ≠ none) :
    ∀ l s e, processAssetRefs env ctx l s ≠ .error e := by
  intro l
  induction l with
  | nil => intro s e h; exact Except.noConfusion h
  | cons v rest ih =>
    intro s e h
    simp only [processAssetRefs] at h
    split at h
    · exact processAssetRef_no_err hres _ _ _ (by assumption)
    · exact ih _ _ h

theorem processAnchor_no_err {env : Env} {ctx : RewriteCtx}
    (hpar : ∀ u, env.parseUrl u ≠ none)
    (hres : ∀ a b, env.resolve a b ≠ none) :
    ∀ href s e, processAnchor env ctx href s ≠ .error e := by
  intro href s e h
  simp only [processAnchor] at h
  repeat' split at h
  all_goals
    first
    | (exact absurd (by assumption) (hres _ _))
    | (exact absurd (by assumption) (hpar _))
    | injection h

theorem processAnchors_no_err {env : Env} {ctx : RewriteCtx}
    (hpar : ∀ u, env.parseUrl u ≠ none)
    (hres : ∀ a b, env.resolve a b ≠ none) :
    ∀ l s e, processAnchors env ctx l s ≠ .error e := by
  intro l
  induction l with
  | nil => intro s e h; exact Except.noConfusion h
  | cons a rest ih =>
    intro s e h
    simp only [processAnchors] at h
    split at h
    · exact processAnchor_no_err hpar hres _ _ _ (by assumption)
    · exact ih _ _ h

theorem processDoc_no_err {env : Env} {ctx : RewriteCtx}
    (hpar : ∀ u, env.parseUrl u ≠ none)
    (hres : ∀ a b, env.resolve a b ≠ none)
    (hdec : ∀ u, env.decodeURIComponent u ≠ none) :
    ∀ doc s e, processDoc env ctx doc s ≠ .error e := by
  intro doc s e h
  simp only [processDoc] at h
  repeat' split at h
  all_goals
    first
    | (exact processImgs_no_err hres hdec _ _ _ (by assumption))
    | (exact processAssetRefs_no_err hres _ _ _ (by assumption))
    | (exact processAnchors_no_err hpar hres _ _ _ h)

theorem visitPage_no_err {env : Env} {cfg : CloneOptions} {robots : RobotsRules}
    {ro od : String}
    (hpar : ∀ u, env.parseUrl u ≠ none)
    (hres : ∀ a b, env.resolve a b ≠ none)
    (hdec : ∀ u, env.decodeURIComponent u ≠ none)
    (htext : ∀ u r, env.fetch u = .ok r → ∃ t, r.textRes = .ok t)
    (hwrite : ∀ p, env.writeOk p = true) :
    ∀ currentUrl s e se, visitPage env cfg robots ro od currentUrl s ≠ .err e se := by
  intro currentUrl s e se h
  simp only [visitPage] at h
  split at h
  · injection h
  · rename_i response hfetch
    split at h
    · injection h
    · obtain ⟨t, ht⟩ := htext _ _ hfetch
      rw [ht] at h
      dsimp only at h
      split at h
      · exact processDoc_no_err hpar hres hdec _ _ _ (by assumption)
      · split at h
        · exact absurd (by assumption) (hpar _)
        · split at h
          · injection h
          · exact absurd (hwrite _) (by assumption)

theorem crawlStep_no_err {env : Env} {cfg : CloneOptions} {robots : RobotsRules}
    {ro od : String}
    (hpar : ∀ u, env.parseUrl u ≠ none)
    (hres : ∀ a b, env.resolve a b ≠ none)
    (hdec : ∀ u, env.decodeURIComponent u ≠ none)
    (htext : ∀ u r, env.fetch u = .ok r → ∃ t, r.textRes = .ok t)
    (hwrite : ∀ p, env.writeOk p = true) :
    ∀ s e se, crawlStep env cfg robots ro od s ≠ .err e se := by
  intro s e se h
  simp only [crawlStep] at h
  repeat' split at h
  all_goals
    first
    | (exact absurd (by assumption) (hpar _))
    | (exact visitPage_no_err hpar hres hdec htext hwrite _ _ _ _ h)
    | injection h

theorem crawlLoop_ok {env : Env} {cfg : CloneOptions} {robots : RobotsRules}
    {ro od : String}
    (hne : ∀ s e se, crawlStep env cfg robots ro od s ≠ .err e se) :
    ∀ s, ∃ fin, crawlLoop env cfg robots ro od s = .ok fin := by
  intro s
  induction s using crawlLoop.induct env cfg robots ro od with
  | case1 s s' hstep => exact ⟨s', by rw [crawlLoop_eq, hstep]⟩
  | case2 s e se hstep => exact absurd hstep (hne s e se)
  | case3 s s' hstep ih =>
    obtain ⟨fin, hfin⟩ := ih
    exact ⟨fin, by rw [crawlLoop_eq, hstep]; exact hfin⟩

/-- A world that parses the root URL, whose root fetch succeeds with HTML
but whose body stream aborts during `response.text()`. -/
def envBodyFail : Env :=
  { envRootOnly with
    fetch := fun u => if u = "http://site.test/" then .ok respBodyFail else .error "ETIMEDOUT" }

/-- A world whose root fetch succeeds with empty HTML but whose filesystem
rejects every page write. -/
def envWriteFail : Env :=
  { envRootOnly with
    fetch := fun u => if u = "http://site.test/" then .ok (respHtml "page") else .error "ETIMEDOUT",
    writeOk := fun _ => false }

/-- Counterexample to claim C2 as stated: with a syntactically valid target
URL and a successfully prepared output directory, a response-body read
failure (`response.text()`, line 144) and a page-write failure
(`fs.writeFile`, lines 233–234) both escape the crawl loop uncaught and
reject the whole operation — they are not absorbed into log lines or
absences. -/
theorem claim_C2_counterexample :
    envBodyFail.parseUrl "http://site.test/" = some urlRoot ∧
    envBodyFail.emptyDirOk = true ∧
    cloneWebsite envBodyFail "http://site.test/" { respectRobots := false } =
      .error "body stream aborted" ∧
    envWriteFail.parseUrl "http://site.test/" = some urlRoot ∧
    envWriteFail.emptyDirOk = true ∧
    cloneWebsite envWriteFail "http://site.test/" { respectRobots := false } =
      .error "EACCES: write failed: /cwd/cloned-websites/index.html" := by
  refine ⟨rfl, rfl, ?_, rfl, rfl, ?_⟩
  · have h1 : crawlStep envBodyFail { respectRobots := false } ⟨[], 0⟩
        urlRoot.origin
        (pathJoin envBodyFail.cwd ({ respectRobots := false } : CloneOptions).outDir)
        (initState urlRoot.href) = .err "body stream aborted" s3w := rfl
    rw [@cloneWebsite_eq _ _ _ urlRoot rfl rfl]
    simp only [if_neg (by simp : ¬(({ respectRobots := false } : CloneOptions).respectRobots = true))]
    rw [crawlLoop_eq, h1]
  · have h1 : crawlStep envWriteFail { respectRobots := false } ⟨[], 0⟩
        urlRoot.origin
        (pathJoin envWriteFail.cwd ({ respectRobots := false } : CloneOptions).outDir)
        (initState urlRoot.href) =
          .err "EACCES: write failed: /cwd/cloned-websites/index.html" s3w := rfl
    rw [@cloneWebsite_eq _ _ _ urlRoot rfl rfl]
    simp only [if_neg (by simp : ¬(({ respectRobots := false } : CloneOptions).respectRobots = true))]
    rw [crawlLoop_eq, h1]

/-- Claim C2 (amended): uncaught throws exist beyond directory preparation
and URL validation — a response-body read failure or a page write failure
also rejects (see the counterexample).  What does hold: when the body
streams, the page writes, and the URL/resolution primitives are total, the
operation always resolves with a Clone Result, however many robots
fetches, page fetches, non-HTML responses, or asset downloads fail. -/
theorem claim_C2_propagation_policy :
    ∀ (env : Env) (targetUrl : String) (options : CloneOptions) (root : Url),
      env.parseUrl targetUrl = some root →
      env.emptyDirOk = true →
      (∀ u, env.parseUrl u ≠ none) →
      (∀ a b, env.resolve a b ≠ none) →
      (∀ u, env.decodeURIComponent u ≠ none) →
      (∀ u r, env.fetch u = .ok r → ∃ t, r.textRes = .ok t) →
      (∀ p, env.writeOk p = true) →
      ∃ run, cloneWebsite env targetUrl options = .ok run := by
  intro env targetUrl options root hroot hdir hpar hres hdec htext hwrite
  rw [cloneWebsite_eq hroot hdir]
  obtain ⟨fin, hfin⟩ :=
    crawlLoop_ok (crawlStep_no_err hpar hres hdec htext hwrite) (initState root.href)
  rw [hfin]
  exact ⟨_, rfl⟩

/-- A total-primitive world whose every fetch nevertheless rejects. -/
def envTotal : Env :=
  { cwd := "/cwd", fetch := fun _ => .error "ETIMEDOUT",
    parseUrl := fun _ => some urlRoot,
    resolve := fun _ _ => some urlRoot,
    decodeURIComponent := fun u => some u,
    load := fun _ => docEmpty, emptyDirOk := true, writeOk := fun _ => true }

theorem claim_C2_witness :
    ∃ run, cloneWebsite envTotal "http://site.test/" {} = .ok run :=
  claim_C2_propagation_policy envTotal "http://site.test/" {} urlRoot rfl rfl
    (fun _ h => Option.noConfusion h) (fun _ _ h => Option.noConfusion h)
    (fun _ h => Option.noConfusion h) (fun _ _ h => Except.noConfusion h)
    (fun _ => rfl)
